import Mathlib

/-!
Verification development for the docai LLM request-execution engine.

The definitions below are a shallow embedding of the Python sources:
  src/docai/llm/llm_datatypes.py  (data model)
  src/docai/llm/base.py           (retry/fallback executor run_request, chat dispatcher)
  src/docai/llm/llm_client.py     (LLMClient construction)
  src/docai/llm/service.py        (LLMService: caches, fingerprint, target resolution)

Conventions used throughout:
  - Python dict values that the program stores or serializes are modelled by the
    JSON-like universe JValue (json.load / json.dump round the disk cache, and
    json.dumps feeds the fingerprint digest, so JValue is exactly the data the
    program observes).
  - Machine floats appear only as RetryPolicy.backoff_sec, which the executor
    passes to asyncio.sleep and the fingerprint serializes; it is modelled as an
    integer since no claim depends on fractional backoff values.
  - Exceptions become Except / sum types: each except clause of the source is a
    branch on the error constructor it catches.
  - asyncio scheduling (task completion order in the chat dispatcher) is an
    explicit parameter of the model.
-/

/-! ## Prelude: Python-style string ordering and association lists -/

/-- Code-point comparison of characters, as Python compares str characters. -/
def charLt (a b : Char) : Bool := a.toNat < b.toNat

/-- Lexicographic strict order on char lists (Python str <). -/
def strLtL : List Char → List Char → Bool
  | [], [] => false
  | [], _ :: _ => true
  | _ :: _, [] => false
  | a :: as, b :: bs => charLt a b || (a == b && strLtL as bs)

/-- Python str <= by code points, as used by sorted() and json sort_keys. -/
def strLe (a b : String) : Bool := a == b || strLtL a.data b.data

/-- Insert a string into a sorted list (ascending, Python sorted order). -/
def strInsert (s : String) : List String → List String
  | [] => [s]
  | t :: ts => if strLe s t then s :: t :: ts else t :: strInsert s ts

/-- Python sorted() on a list of strings (insertion sort, stable). -/
def strSorted : List String → List String
  | [] => []
  | s :: ss => strInsert s (strSorted ss)

/-- Association-list lookup, modelling Python dict membership and access. -/
def alookup {α : Type} (kvs : List (String × α)) (k : String) : Option α :=
  match kvs with
  | [] => none
  | (k1, v) :: rest => if k1 = k then some v else alookup rest k

/-- Association-list overwrite-or-append, modelling Python dict assignment. -/
def aset {α : Type} (kvs : List (String × α)) (k : String) (v : α) : List (String × α) :=
  match kvs with
  | [] => [(k, v)]
  | (k1, v1) :: rest => if k1 = k then (k, v) :: rest else (k1, v1) :: aset rest k v

/-- Key membership in an association list (Python `k in d`). -/
def amem {α : Type} (kvs : List (String × α)) (k : String) : Bool :=
  (alookup kvs k).isSome

/-! ## JSON value universe

Python values that flow through json.load / json.dumps in service.py. -/

inductive JValue where
  | null : JValue
  | bool (b : Bool) : JValue
  | num (n : Int) : JValue
  | str (s : String) : JValue
  | arr (xs : List JValue) : JValue
  | obj (kvs : List (String × JValue)) : JValue

mutual
def jeq : JValue → JValue → Bool
  | .null, .null => true
  | .bool a, .bool b => a == b
  | .num a, .num b => a == b
  | .str a, .str b => a == b
  | .arr a, .arr b => jeqList a b
  | .obj a, .obj b => jeqPairs a b
  | _, _ => false

def jeqList : List JValue → List JValue → Bool
  | [], [] => true
  | a :: as, b :: bs => jeq a b && jeqList as bs
  | _, _ => false

def jeqPairs : List (String × JValue) → List (String × JValue) → Bool
  | [], [] => true
  | (k, v) :: as, (k2, v2) :: bs => k == k2 && jeq v v2 && jeqPairs as bs
  | _, _ => false
end

mutual
theorem jeq_iff : ∀ a b : JValue, jeq a b = true ↔ a = b
  | .null, .null => by simp [jeq]
  | .bool a, .bool b => by simp [jeq]
  | .num a, .num b => by simp [jeq]
  | .str a, .str b => by simp [jeq]
  | .arr a, .arr b => by simp [jeq, jeqList_iff a b]
  | .obj a, .obj b => by simp [jeq, jeqPairs_iff a b]
  | .null, .bool _ | .null, .num _ | .null, .str _ | .null, .arr _ | .null, .obj _
  | .bool _, .null | .bool _, .num _ | .bool _, .str _ | .bool _, .arr _ | .bool _, .obj _
  | .num _, .null | .num _, .bool _ | .num _, .str _ | .num _, .arr _ | .num _, .obj _
  | .str _, .null | .str _, .bool _ | .str _, .num _ | .str _, .arr _ | .str _, .obj _
  | .arr _, .null | .arr _, .bool _ | .arr _, .num _ | .arr _, .str _ | .arr _, .obj _
  | .obj _, .null | .obj _, .bool _ | .obj _, .num _ | .obj _, .str _ | .obj _, .arr _ => by
      simp [jeq]

theorem jeqList_iff : ∀ a b : List JValue, jeqList a b = true ↔ a = b
  | [], [] => by simp [jeqList]
  | a :: as, b :: bs => by simp [jeqList, jeq_iff a b, jeqList_iff as bs]
  | [], _ :: _ => by simp [jeqList]
  | _ :: _, [] => by simp [jeqList]

theorem jeqPairs_iff : ∀ a b : List (String × JValue), jeqPairs a b = true ↔ a = b
  | [], [] => by simp [jeqPairs]
  | (k, v) :: as, (k2, v2) :: bs => by
      simp [jeqPairs, jeq_iff v v2, jeqPairs_iff as bs, Prod.ext_iff, and_assoc]
  | [], _ :: _ => by simp [jeqPairs]
  | _ :: _, [] => by simp [jeqPairs]
end

instance : DecidableEq JValue := fun a b => decidable_of_iff _ (jeq_iff a b)

/-- Insert one key-value pair by key order (json.dumps sort_keys order). -/
def jInsertPair (p : String × JValue) :
    List (String × JValue) → List (String × JValue)
  | [] => [p]
  | q :: qs => if strLe p.1 q.1 then p :: q :: qs else q :: jInsertPair p qs

/-- Sort object members by key, as json.dumps does with sort_keys=True. -/
def jSortPairs : List (String × JValue) → List (String × JValue)
  | [] => []
  | p :: ps => jInsertPair p (jSortPairs ps)

mutual
/-- Recursively sort every object of a JSON value by key; json.dumps with
sort_keys=True serializes a value exactly as the plain serialization of this
normal form. -/
def jSortObjs : JValue → JValue
  | .null => .null
  | .bool b => .bool b
  | .num n => .num n
  | .str s => .str s
  | .arr xs => .arr (jSortObjsList xs)
  | .obj kvs => .obj (jSortPairs (jSortObjsPairs kvs))

def jSortObjsList : List JValue → List JValue
  | [] => []
  | v :: vs => jSortObjs v :: jSortObjsList vs

def jSortObjsPairs : List (String × JValue) → List (String × JValue)
  | [] => []
  | (k, v) :: kvs => (k, jSortObjs v) :: jSortObjsPairs kvs
end

/-! ## Rendering, mirroring json.dumps(payload, sort_keys=True) with its default
separators and ensure_ascii=True, as build_cache_key in service.py calls it -/

/-- Little-endian decimal digits; fuel bounds the recursion depth. -/
def natDigitsAux : Nat → Nat → List Nat
  | 0, _ => []
  | _ + 1, 0 => []
  | fuel + 1, n => n % 10 :: natDigitsAux fuel (n / 10)

/-- Decimal rendering of a natural number, as Python str(). -/
def natChars (n : Nat) : List Char :=
  if n = 0 then ['0'] else (natDigitsAux n n).reverse.map Nat.digitChar

/-- Decimal rendering of an integer, as Python str() / json.dumps. -/
def intChars (i : Int) : List Char :=
  if i < 0 then '-' :: natChars i.natAbs else natChars i.natAbs

/-- The \uXXXX escape json.dumps emits for a 16-bit code unit (lowercase hex). -/
def uEsc (n : Nat) : List Char :=
  ['\\', 'u', Nat.digitChar (n / 4096 % 16), Nat.digitChar (n / 256 % 16),
   Nat.digitChar (n / 16 % 16), Nat.digitChar (n % 16)]

/-- Escape of one character, as the json.dumps ensure_ascii encoder: short
escapes for the quote, backslash and common controls, \uXXXX for the remaining
controls and all non-ASCII, surrogate pairs above the basic plane. -/
def escChar (c : Char) : List Char :=
  if c = '"' then ['\\', '"']
  else if c = '\\' then ['\\', '\\']
  else if c = '\x08' then ['\\', 'b']
  else if c = '\x09' then ['\\', 't']
  else if c = '\x0a' then ['\\', 'n']
  else if c = '\x0c' then ['\\', 'f']
  else if c = '\x0d' then ['\\', 'r']
  else if c.toNat < 0x20 || 0x7e < c.toNat then
    if c.toNat < 0x10000 then uEsc c.toNat
    else uEsc (0xD800 + (c.toNat - 0x10000) / 1024) ++ uEsc (0xDC00 + (c.toNat - 0x10000) % 1024)
  else [c]

/-- Rendered JSON string literal: quote, escaped body, quote. -/
def escStr (s : String) : List Char :=
  '"' :: (s.data.flatMap escChar ++ ['"'])

mutual
/-- Plain JSON rendering (object members in stored order); json.dumps with
sort_keys=True is jDump composed with jSortObjs. Separators are the
json.dumps defaults (", " and ": "). -/
def jDump : JValue → List Char
  | .null => "null".data
  | .bool true => "true".data
  | .bool false => "false".data
  | .num n => intChars n
  | .str s => escStr s
  | .arr [] => ['[', ']']
  | .arr (x :: xs) => '[' :: ((jDump x ++ jDumpElems xs) ++ [']'])
  | .obj [] => ['\x7b', '\x7d']
  | .obj (p :: ps) => '\x7b' :: ((jDumpMember p ++ jDumpMembers ps) ++ ['\x7d'])

/-- Remaining array elements, each preceded by the ", " separator. -/
def jDumpElems : List JValue → List Char
  | [] => []
  | x :: xs => ',' :: ' ' :: (jDump x ++ jDumpElems xs)

/-- One object member as key, ": ", value. -/
def jDumpMember : String × JValue → List Char
  | (k, v) => escStr k ++ (':' :: ' ' :: jDump v)

/-- Remaining object members, each preceded by the ", " separator. -/
def jDumpMembers : List (String × JValue) → List Char
  | [] => []
  | p :: ps => ',' :: ' ' :: (jDumpMember p ++ jDumpMembers ps)
end

/-- json.dumps(v, sort_keys=True, ensure_ascii=True) as a Lean string. -/
def jDumps (v : JValue) : String := ⟨jDump (jSortObjs v)⟩

/-! ## SHA-256 (hashlib.sha256(...).hexdigest()) over UTF-8 bytes -/

def w32 (n : Nat) : Nat := n % 4294967296

def rotr32 (k n : Nat) : Nat := w32 ((n >>> k) ||| ((n % (2 ^ k)) <<< (32 - k)))

def shaK : List Nat :=
  [1116352408, 1899447441, 3049323471, 3921009573, 961987163, 1508970993, 2453635748, 2870763221,
   3624381080, 310598401, 607225278, 1426881987, 1925078388, 2162078206, 2614888103, 3248222580,
   3835390401, 4022224774, 264347078, 604807628, 770255983, 1249150122, 1555081692, 1996064986,
   2554220882, 2821834349, 2952996808, 3210313671, 3336571891, 3584528711, 113926993, 338241895,
   666307205, 773529912, 1294757372, 1396182291, 1695183700, 1986661051, 2177026350, 2456956037,
   2730485921, 2820302411, 3259730800, 3345764771, 3516065817, 3600352804, 4094571909, 275423344,
   430227734, 506948616, 659060556, 883997877, 958139571, 1322822218, 1537002063, 1747873779,
   1955562222, 2024104815, 2227730452, 2361852424, 2428436474, 2756734187, 3204031479, 3329325298]

def shaInitH : List Nat :=
  [1779033703, 3144134277, 1013904242, 2773480762,
   1359893119, 2600822924, 528734635, 1541459225]

/-- Split a byte list into 64-byte blocks (fuel bounds recursion depth). -/
def shaBlocksAux : Nat → List Nat → List (List Nat)
  | 0, _ => []
  | _, [] => []
  | fuel + 1, l@(_ :: _) => l.take 64 :: shaBlocksAux fuel (l.drop 64)

def shaBlocks (l : List Nat) : List (List Nat) := shaBlocksAux l.length l

/-- Big-endian bytes of n, w bytes wide. -/
def beBytes : Nat → Nat → List Nat
  | 0, _ => []
  | w + 1, n => beBytes w (n / 256) ++ [n % 256]

def shaPad (msg : List Nat) : List Nat :=
  let L := msg.length
  let padZeros := (55 + 64 - L % 64) % 64
  msg ++ [0x80] ++ List.replicate padZeros 0 ++ beBytes 8 (8 * L)

/-- First 16 words (big-endian) of a 64-byte block. -/
def shaBlockWords : List Nat → List Nat
  | b0 :: b1 :: b2 :: b3 :: rest =>
      (((b0 * 256 + b1) * 256 + b2) * 256 + b3) :: shaBlockWords rest
  | _ => []

def smallSigma0 (x : Nat) : Nat := (rotr32 7 x) ^^^ (rotr32 18 x) ^^^ (x >>> 3)
def smallSigma1 (x : Nat) : Nat := (rotr32 17 x) ^^^ (rotr32 19 x) ^^^ (x >>> 10)
def bigSigma0 (x : Nat) : Nat := (rotr32 2 x) ^^^ (rotr32 13 x) ^^^ (rotr32 22 x)
def bigSigma1 (x : Nat) : Nat := (rotr32 6 x) ^^^ (rotr32 11 x) ^^^ (rotr32 25 x)

/-- Extend 16 schedule words to 64 (reversed accumulator: head is the newest). -/
def shaExtendWords : Nat → List Nat → List Nat
  | 0, acc => acc.reverse
  | k + 1, acc =>
      let w2 := acc.getD 1 0
      let w7 := acc.getD 6 0
      let w15 := acc.getD 14 0
      let w16 := acc.getD 15 0
      shaExtendWords k (w32 (smallSigma1 w2 + w7 + smallSigma0 w15 + w16) :: acc)

def shaSchedule (block : List Nat) : List Nat :=
  shaExtendWords 48 (shaBlockWords block).reverse

def shaRound (st : List Nat) (kw : Nat × Nat) : List Nat :=
  match st with
  | [a, b, c, d, e, f, g, h] =>
      let t1 := w32 (h + bigSigma1 e + ((e &&& f) ^^^ ((4294967295 - e) &&& g)) + kw.1 + kw.2)
      let t2 := w32 (bigSigma0 a + ((a &&& b) ^^^ (a &&& c) ^^^ (b &&& c)))
      [w32 (t1 + t2), a, b, c, w32 (d + t1), e, f, g]
  | st => st

def shaCompress (h : List Nat) (block : List Nat) : List Nat :=
  let st := (shaK.zip (shaSchedule block)).foldl (fun s (p : Nat × Nat) => shaRound s (p.2, p.1)) h
  (h.zip st).map (fun p => w32 (p.1 + p.2))

def sha256Bytes (msg : List Nat) : List Nat :=
  let hs := (shaBlocks (shaPad msg)).foldl shaCompress shaInitH
  hs.foldr (fun w acc => beBytes 4 w ++ acc) []

def byteHex (b : Nat) : List Char := [Nat.digitChar (b / 16), Nat.digitChar (b % 16)]

/-- hashlib.sha256(bytes).hexdigest(). -/
def sha256Hex (msg : List Nat) : String :=
  ⟨(sha256Bytes msg).foldr (fun b acc => byteHex b ++ acc) []⟩

/-- UTF-8 encoding of one character (str.encode building block). -/
def utf8Char (c : Char) : List Nat :=
  let n := c.toNat
  if n < 0x80 then [n]
  else if n < 0x800 then [0xC0 + n / 64, 0x80 + n % 64]
  else if n < 0x10000 then [0xE0 + n / 4096, 0x80 + (n / 64) % 64, 0x80 + n % 64]
  else [0xF0 + n / 262144, 0x80 + (n / 4096) % 64, 0x80 + (n / 64) % 64, 0x80 + n % 64]

/-- Python str.encode("utf-8"). -/
def utf8Encode (s : String) : List Nat := s.data.flatMap utf8Char

/-! ## Data model (llm_datatypes.py) -/

inductive LLMRole where
  | system
  | user
  | assistant
  | functionreq
  | functionresp
  deriving DecidableEq

/-- The .value string of each LLMRole enum member. -/
def LLMRole.value : LLMRole → String
  | .system => "system"
  | .user => "user"
  | .assistant => "assistant"
  | .functionreq => "function_request"
  | .functionresp => "function_response"

structure LLMFunctionRequest where
  name : String
  args : Option (List (String × JValue))
  deriving DecidableEq

structure LLMFunctionResponse where
  name : String
  result : JValue
  deriving DecidableEq

/-- The typed content of an LLMMessage: str, LLMFunctionRequest or
LLMFunctionResponse. -/
inductive LLMContent where
  | text (s : String)
  | funcReq (f : LLMFunctionRequest)
  | funcResp (f : LLMFunctionResponse)
  deriving DecidableEq

/-- llm_datatypes.LLMMessage. The opaque provider-native passthrough
original_content is observed by the program only through repr() in
_message_to_payload, so it is modelled by that repr string. -/
structure LLMMessage where
  role : LLMRole
  content : LLMContent
  original_content : Option String := none
  deriving DecidableEq

structure LLMRequest where
  request_id : String
  contents : List LLMMessage
  system_prompt : Option String := none
  agent_functions : Option (List String) := none
  structured_output : Option (List (String × JValue)) := none
  deriving DecidableEq

structure LLMResponse where
  request_id : String
  response : Option LLMMessage := none
  deriving DecidableEq

structure LLMTarget where
  provider : String
  model : String
  model_config : Option (List (String × JValue)) := none
  provider_config : Option (List (String × JValue)) := none
  deriving DecidableEq

/-- llm_datatypes.RetryPolicy; backoff_sec is a float in the source, modelled
as an integer (it only feeds asyncio.sleep and the fingerprint payload). -/
structure RetryPolicy where
  max_attempts : Nat := 1
  retry_on : List String := ["5..", "408", "429"]
  backoff_sec : Int := 2
  deriving DecidableEq

structure LLMExecutionPlan where
  request : LLMRequest
  primary : LLMTarget
  fallbacks : List LLMTarget := []
  retry : RetryPolicy := {}
  deriving DecidableEq

/-! ## Status-code pattern matching (base.py, _status_code_matches) -/

/-- One pattern character against one character of str(status_code), after the
source replaces "x" by the regex digit class: a digit matches itself, the x
wildcard matches any digit, and the dot of the default policy patterns ("5..")
matches any character, exactly re.fullmatch on the pattern alphabet this
repository uses (digits, x, dot). -/
def patChar (p c : Char) : Bool :=
  if p = 'x' then c.isDigit
  else if p = '.' then true
  else p = c

/-- re.fullmatch of a whole pattern: same length, characters match pointwise. -/
def patMatch : List Char → List Char → Bool
  | [], [] => true
  | p :: ps, c :: cs => patChar p c && patMatch ps cs
  | _, _ => false

/-- _status_code_matches(patterns, status_code): any pattern fullmatches
str(status_code). Status codes in this repository are the nonnegative HTTP
and 6xx internal codes, so the code is a Nat. -/
def statusCodeMatches (patterns : List String) (code : Nat) : Bool :=
  patterns.any (fun pat => patMatch pat.data (natChars code))

/-! ## Client construction (llm_client.py, LLMClient.__init__) -/

inductive InitErr where
  | llmErr (status_code : Nat) (response : String)
  | keyError (key : String)
  | valueError (msg : String)
  deriving DecidableEq

/-- LLMClient.__init__: only the google provider is supported; any other
identifier raises LLMError(600, ...). The google branch reads
provider_config["api_key_env"] with a bare subscript (KeyError when the key is
absent), falls back to GEMINI_API_KEY when the configured value is falsy (None
or the empty string in the configuration schema), and raises ValueError when
the resulting environment variable is unset or empty; env models
os.environ.get. The constructed client object carries no information the
executor branches on, so success is Unit; generate outcomes come from the
oracle given to run_request. -/
def llmClientInit (env : String → Option String) (provider : String)
    (provider_config : List (String × JValue)) : Except InitErr Unit :=
  if provider = "google" then
    match alookup provider_config "api_key_env" with
    | none => .error (.keyError "api_key_env")
    | some v =>
        let apiKeyName :=
          match v with
          | .str s => if s = "" then "GEMINI_API_KEY" else s
          | _ => "GEMINI_API_KEY"
        match env apiKeyName with
        | none => .error (.valueError ("API key " ++ apiKeyName ++ " not set"))
        | some "" => .error (.valueError ("API key " ++ apiKeyName ++ " not set"))
        | some _ => .ok ()
  else .error (.llmErr 600 ("LLMClient not found for provider: " ++ provider))

/-! ## Retry/fallback executor (base.py, run_request)

The outcome of each call_llm invocation is external (network); it is an oracle
gen indexed by the global call counter. Every exception escaping call_llm is an
LLMError by construction of the google wrapper (llm_client.py converts APIError
and any other exception into LLMError subclasses), so an outcome is a response
or a status code with message. -/

inductive GenResult where
  | ok (r : LLMResponse)
  | err (status_code : Nat) (response : String)
  deriving DecidableEq

inductive RunResult where
  | ok (r : LLMResponse)
  | raisedLLM (status_code : Nat) (response : String)
  | raisedInit (e : InitErr)
  deriving DecidableEq

/-- State threaded through run_request: the global call counter (oracle index),
the trace of generate() calls already made (target index paired with that call
outcome), and the last_error local of the source. -/
structure AttState where
  calls : Nat
  trace : List (Nat × GenResult)
  lastError : Option (Nat × String)
  deriving DecidableEq

/-- Result of a whole run: the value run_request produces (or the exception it
raises), the complete generate() call trace, and the final clients registry. -/
structure RunLog where
  result : RunResult
  trace : List (Nat × GenResult)
  clients : List String
  deriving DecidableEq

/-- The attempt loop of run_request (base.py lines 46-61) on one target: up to
max_attempts rounds; a success returns at once; a failure lands in last_error
and is retried when its status code matches retry_on (after the asyncio.sleep
backoff, elided here), otherwise the loop breaks to try the next target. -/
def attemptLoop (gen : Nat → GenResult) (retryOn : List String) (tIdx : Nat) :
    Nat → AttState → AttState × Option LLMResponse
  | 0, st => (st, none)
  | n + 1, st =>
      match gen st.calls with
      | .ok r =>
          ({ st with calls := st.calls + 1, trace := st.trace ++ [(tIdx, .ok r)] }, some r)
      | .err c m =>
          let st2 : AttState :=
            { calls := st.calls + 1, trace := st.trace ++ [(tIdx, .err c m)],
              lastError := some (c, m) }
          if statusCodeMatches retryOn c then attemptLoop gen retryOn tIdx n st2
          else (st2, none)

/-- The target loop of run_request (base.py lines 35-66) over the enumerated
[primary] ++ fallbacks. Construction (clients[provider] = LLMClient(...)) runs
only when the provider key is absent from the clients dict; an LLMError from it
is stored in last_error and the loop continues with the next target, while any
other exception (KeyError, ValueError) propagates out of run_request uncaught.
When every target is exhausted the last error is raised, or LLMError(604) when
no error was ever recorded. -/
def targetLoop (env : String → Option String) (gen : Nat → GenResult)
    (retry : RetryPolicy) :
    List (Nat × LLMTarget) → List String → AttState → RunLog
  | [], clients, st =>
      { result :=
          match st.lastError with
          | some (c, m) => .raisedLLM c m
          | none => .raisedLLM 604 "No LLM targets could be executed"
        trace := st.trace, clients := clients }
  | (i, t) :: rest, clients, st =>
      match (if t.provider ∈ clients then Except.ok clients
             else
               match llmClientInit env t.provider (t.provider_config.getD []) with
               | .ok _ => .ok (clients ++ [t.provider])
               | .error e => .error e) with
      | .error (.llmErr c m) =>
          targetLoop env gen retry rest clients { st with lastError := some (c, m) }
      | .error e => { result := .raisedInit e, trace := st.trace, clients := clients }
      | .ok clients2 =>
          let p := attemptLoop gen retry.retry_on i retry.max_attempts st
          match p.2 with
          | some r => { result := .ok r, trace := p.1.trace, clients := clients2 }
          | none => targetLoop env gen retry rest clients2 p.1

/-- run_request (base.py lines 30-66). -/
def run_request (env : String → Option String) (gen : Nat → GenResult)
    (plan : LLMExecutionPlan) (clients0 : List String) : RunLog :=
  targetLoop env gen plan.retry (([plan.primary] ++ plan.fallbacks).enum) clients0
    ⟨0, [], none⟩

/-! ## Fingerprint payloads (service.py, _message_to_payload and friends) -/

def CACHE_VERSION : Int := 1

def optStrJ : Option String → JValue
  | some s => .str s
  | none => .null

def optObjJ : Option (List (String × JValue)) → JValue
  | some o => .obj o
  | none => .null

/-- _message_to_payload (service.py lines 276-298): role value, content_type
tag, typed content; the provider-native passthrough contributes only its
repr() string under original_content_repr, and only when present. -/
def message_to_payload (m : LLMMessage) : JValue :=
  let base : List (String × JValue) :=
    match m.content with
    | .text s =>
        [("role", .str m.role.value), ("content_type", .str "text"), ("content", .str s)]
    | .funcReq f =>
        [("role", .str m.role.value), ("content_type", .str "function_request"),
         ("content", .obj [("name", .str f.name), ("args", optObjJ f.args)])]
    | .funcResp f =>
        [("role", .str m.role.value), ("content_type", .str "function_response"),
         ("content", .obj [("name", .str f.name), ("result", f.result)])]
  .obj (match m.original_content with
        | some r => base ++ [("original_content_repr", .str r)]
        | none => base)

/-- _request_to_payload (service.py lines 265-273); agent_functions is sorted,
with the empty list collapsing to null by Python truthiness. -/
def request_to_payload (r : LLMRequest) : JValue :=
  .obj [("system_prompt", optStrJ r.system_prompt),
        ("structured_output", optObjJ r.structured_output),
        ("agent_functions",
          match r.agent_functions with
          | some l => if l = [] then .null else .arr ((strSorted l).map .str)
          | none => .null),
        ("contents", .arr (r.contents.map message_to_payload))]

/-- _target_to_payload (service.py lines 301-307). -/
def target_to_payload (t : LLMTarget) : JValue :=
  .obj [("provider", .str t.provider), ("model", .str t.model),
        ("model_config", optObjJ t.model_config),
        ("provider_config", optObjJ t.provider_config)]

/-- The payload dict of LLMService.build_cache_key (service.py lines 163-174). -/
def cache_key_payload (plan : LLMExecutionPlan) : JValue :=
  .obj [("version", .num CACHE_VERSION),
        ("request", request_to_payload plan.request),
        ("primary", target_to_payload plan.primary),
        ("fallbacks", .arr (plan.fallbacks.map target_to_payload)),
        ("retry", .obj [("max_attempts", .num (plan.retry.max_attempts : Int)),
                        ("retry_on", .arr (plan.retry.retry_on.map .str)),
                        ("backoff_sec", .num plan.retry.backoff_sec)])]

/-- The exact string build_cache_key feeds to hashlib:
json.dumps(payload, sort_keys=True, default=str). -/
def cache_key_blob (plan : LLMExecutionPlan) : String :=
  jDumps (cache_key_payload plan)

/-- LLMService.build_cache_key: sha256 hexdigest of the utf-8 encoded blob. -/
def build_cache_key (plan : LLMExecutionPlan) : String :=
  sha256Hex (utf8Encode (cache_key_blob plan))

/-! ## Message serialization for the disk cache (service.py lines 310-334) -/

/-- _serialize_message: _message_to_payload with original_content_repr popped,
which equals the payload of the message with its passthrough dropped. -/
def serialize_message (m : LLMMessage) : JValue :=
  message_to_payload { m with original_content := none }

/-- What _deserialize_message actually builds. The catch-all else branch of the
source performs no type check, so a deserialized content may be any JSON value
(raw); function request/response contents carry whatever JSON value the file
held under name, and args/result come from dict.get, which yields Python None
both for an absent key and for a stored JSON null. -/
inductive DContent where
  | raw (j : JValue)
  | freq (name : JValue) (args : Option JValue)
  | fresp (name : JValue) (result : Option JValue)
  deriving DecidableEq

structure DMessage where
  role : LLMRole
  content : DContent
  deriving DecidableEq

/-- LLMRole(value): Python Enum lookup by value, ValueError (none) on anything
but the five role strings. -/
def roleOfValue : JValue → Option LLMRole
  | .str "system" => some .system
  | .str "user" => some .user
  | .str "assistant" => some .assistant
  | .str "function_request" => some .functionreq
  | .str "function_response" => some .functionresp
  | _ => none

/-- dict.get(k) on parsed JSON as Python observes it: a missing key and a
stored null both give None. -/
def jGetOpt (kvs : List (String × JValue)) (k : String) : Option JValue :=
  match alookup kvs k with
  | some .null => none
  | some v => some v
  | none => none

/-- _deserialize_message (service.py lines 316-334). Each exception path the
caller catches (KeyError on a missing role/content_type/content/name key,
ValueError on an unknown role value, TypeError when a function content is not
a dict) is a none branch; the final else accepts any content under any other
content_type value. -/
def deserialize_message (payload : JValue) : Option DMessage :=
  match payload with
  | .obj kvs =>
      match alookup kvs "role" with
      | none => none
      | some rv =>
          match roleOfValue rv with
          | none => none
          | some role =>
              match alookup kvs "content_type", alookup kvs "content" with
              | some (.str "function_request"), some content =>
                  (match content with
                   | .obj c =>
                       (match alookup c "name" with
                        | none => none
                        | some nm => some ⟨role, .freq nm (jGetOpt c "args")⟩)
                   | _ => none)
              | some (.str "function_response"), some content =>
                  (match content with
                   | .obj c =>
                       (match alookup c "name" with
                        | none => none
                        | some nm => some ⟨role, .fresp nm (jGetOpt c "result")⟩)
                   | _ => none)
              | some _, some content => some ⟨role, .raw content⟩
              | _, _ => none
  | _ => none

/-! ## Cache backends (service.py lines 39-83) -/

/-- State of one path of the cache directory: present but unreadable or not
valid JSON (open or json.load raises OSError/JSONDecodeError, both caught by
the first except clause of DiskCache.get), present but holding bytes that are
not valid UTF-8 (json.load then raises UnicodeDecodeError, which
except (OSError, json.JSONDecodeError) does not catch since
UnicodeDecodeError subclasses ValueError, and the ValueError handler guards
only _deserialize_message), or parsed JSON. A path absent from the
association list is a missing file. -/
inductive FileState where
  | corrupt
  | undecodable
  | json (j : JValue)
  deriving DecidableEq

/-- The exception DiskCache.get leaks: the UnicodeDecodeError json.load raises
on a cache file whose bytes are not valid UTF-8. -/
inductive CacheGetExn where
  | unicodeDecodeError
  deriving DecidableEq

/-- DiskCache._path_for_key: os.path.join(cache_dir, key + ".json"). -/
def path_for_key (cacheDir key : String) : String :=
  cacheDir ++ "/" ++ key ++ ".json"

/-- DiskCache.get: a missing file, a caught-corrupt file (OSError or
JSONDecodeError) and an undeserializable payload (KeyError/ValueError/
TypeError out of _deserialize_message) are misses; but a present file of
invalid UTF-8 bytes makes get raise UnicodeDecodeError, uncaught. -/
def diskCacheGet (cacheDir : String) (fs : List (String × FileState))
    (key : String) : Except CacheGetExn (Option DMessage) :=
  match alookup fs (path_for_key cacheDir key) with
  | none => .ok none
  | some .corrupt => .ok none
  | some .undecodable => .error .unicodeDecodeError
  | some (.json j) => .ok (deserialize_message j)

/-- DiskCache.set: write the serialized payload under the key path. The
temp-file write plus os.replace is modelled as one atomic association update;
the claims checked here concern the state after set returns, not mid-write
interleavings. -/
def diskCacheSet (cacheDir : String) (fs : List (String × FileState))
    (key : String) (m : LLMMessage) : List (String × FileState) :=
  aset fs (path_for_key cacheDir key) (.json (serialize_message m))

/-- InMemoryCache.get (dict get). -/
def inMemoryGet (store : List (String × LLMMessage)) (key : String) :
    Option LLMMessage :=
  alookup store key

/-- InMemoryCache.set (dict assignment). -/
def inMemorySet (store : List (String × LLMMessage)) (key : String)
    (m : LLMMessage) : List (String × LLMMessage) :=
  aset store key m

/-! ## get_or_run (service.py lines 147-161) -/

structure GetOrRunResult where
  response : LLMResponse
  cache : Option (List (String × LLMMessage))
  runnerCalls : Nat
  deriving DecidableEq

/-- LLMService.get_or_run with the configured cache state explicit (none when
the service holds no cache) and the runner a function of the plan. Returns the
response, the cache state afterwards, and how often the runner ran. The
fingerprint is computed first in all paths, as in the source. -/
def get_or_run (runner : LLMExecutionPlan → LLMResponse)
    (cache : Option (List (String × LLMMessage)))
    (plan : LLMExecutionPlan) (use_cache : Bool) : GetOrRunResult :=
  let cache_key := build_cache_key plan
  match use_cache, cache with
  | true, some store =>
      (match inMemoryGet store cache_key with
       | some cached => ⟨⟨plan.request.request_id, some cached⟩, some store, 0⟩
       | none =>
           let response := runner plan
           match response.response with
           | some msg => ⟨response, some (inMemorySet store cache_key msg), 1⟩
           | none => ⟨response, some store, 1⟩)
  | _, _ => ⟨runner plan, cache, 1⟩

/-! ## Target resolution (service.py, LLMService._resolve_target) -/

/-- A single quote character, used by the LLMServiceError message f-strings. -/
def sqc : String := ⟨[Char.ofNat 39]⟩

/-- profile entries: dicts with optional model, provider and tools keys; tools
is only consulted when it is a dict, and then only its allowed key (some o
models a dict tools entry whose allowed list is o). -/
structure ProfileCfg where
  model : Option String := none
  provider : Option String := none
  tools : Option (Option (List String)) := none
  deriving DecidableEq

/-- model entries: dicts with optional default-provider, model_name and
generation keys. -/
structure ModelCfg where
  default_provider : Option String := none
  model_name : Option String := none
  generation : Option (List (String × JValue)) := none
  deriving DecidableEq

/-- The llm_config dict: profiles, models and providers registries
(llm_config.get with {} defaults makes absent registries empty). -/
structure LLMConfig where
  profiles : List (String × ProfileCfg) := []
  models : List (String × ModelCfg) := []
  providers : List (String × List (String × JValue)) := []
  deriving DecidableEq

/-- Python truthiness filter on an optional string (None and "" are falsy). -/
def truthyStr : Option String → Option String
  | some "" => none
  | some s => some s
  | none => none

/-- dict.update of override into base. -/
def dictUpdate (base override : List (String × JValue)) :
    List (String × JValue) :=
  override.foldl (fun acc kv => aset acc kv.1 kv.2) base

/-- `d or None` on a dict: an empty dict collapses to None. -/
def orNoneObj (l : List (String × JValue)) : Option (List (String × JValue)) :=
  if l = [] then none else some l

/-- Rendering of the model_key reference inside the LLMServiceError f-string
(None prints as the string None). -/
def modelKeyRepr : Option String → String
  | none => "None"
  | some s => s

/-- LLMService._resolve_target (service.py lines 198-246). The error strings
reproduce the source f-strings; the error type models LLMServiceError.
Note the provider lookup: providers.get(provider, {}) silently yields an empty
provider config when the named provider is absent from the providers registry.
The `if model_config_override:` truthiness guards are modelled by the none
cases (an empty override dict updates nothing, so collapsing falsy overrides
to none is exact). -/
def resolve_target (cfg : LLMConfig) (profile_name : String)
    (model_config_override : Option (List (String × JValue)))
    (provider_config_override : Option (List (String × JValue))) :
    Except String (LLMTarget × Option (List String)) :=
  match alookup cfg.profiles profile_name with
  | none => .error ("Unknown profile " ++ sqc ++ profile_name ++ sqc)
  | some profile =>
      match truthyStr profile.model with
      | none =>
          .error ("Profile " ++ sqc ++ profile_name ++ sqc ++ " references unknown model "
            ++ sqc ++ modelKeyRepr profile.model ++ sqc)
      | some mk =>
          match alookup cfg.models mk with
          | none =>
              .error ("Profile " ++ sqc ++ profile_name ++ sqc
                ++ " references unknown model " ++ sqc ++ mk ++ sqc)
          | some model =>
              match
                (match truthyStr profile.provider with
                 | some p => some p
                 | none => truthyStr model.default_provider) with
              | none =>
                  .error ("Model " ++ sqc ++ mk ++ sqc
                    ++ " does not define a default provider")
              | some provider =>
                  let model_name := model.model_name.getD mk
                  let mcfg0 := model.generation.getD []
                  let pcfg0 := (alookup cfg.providers provider).getD []
                  let mcfg :=
                    match model_config_override with
                    | some o => dictUpdate mcfg0 o
                    | none => mcfg0
                  let pcfg :=
                    match provider_config_override with
                    | some o => dictUpdate pcfg0 o
                    | none => pcfg0
                  let tools :=
                    match profile.tools with
                    | some allowed => allowed
                    | none => none
                  .ok (⟨provider, model_name, orNoneObj mcfg, orNoneObj pcfg⟩, tools)

/-! ## Streaming dispatcher (base.py, chat and run_chat) -/

structure ChatRequest where
  id : String
  prompt : String
  system_prompt : Option String := none
  structured_output : Option (List (String × JValue)) := none
  agent : Bool := false
  history : Option (List LLMMessage) := none
  deriving DecidableEq

structure ChatResponse where
  id : String
  response : JValue
  message : LLMMessage
  deriving DecidableEq

inductive ChatExn where
  | llmError (status_code : Nat) (response : String)
  | notImplementedError (msg : String)
  deriving DecidableEq

/-- run_chat (base.py lines 86-99): with no "semaphore" entry in
config.llm_args it raises LLMError(605); otherwise it acquires the semaphore,
does nothing, and unconditionally raises NotImplementedError. Every chat task
therefore fails with one of these two exceptions. -/
def run_chat (llmArgKeys : List String) (_req : ChatRequest) : ChatExn :=
  if "semaphore" ∈ llmArgKeys then .notImplementedError "Implement this function"
  else .llmError 605 "Semaphores not configured"

/-- chat (base.py lines 110-158): raises LLMError(605) before yielding anything
when config.llm_args lacks inflight_semaphore; otherwise each request is
admitted under the inflight gate as one task, and every finished task is
yielded exactly once, its result as a value and its exception equally as a
value (the try/except around task.result() turns per-task failures into
yielded items, for the opportunistic drain and the final flush alike).
asyncio completion order is the order parameter: position i of order yields
the outcome of request number i; out-of-range entries yield nothing (no such
task exists). -/
def chat (llmArgKeys : List String) (requests : List ChatRequest)
    (order : List Nat) : Except ChatExn (List (ChatResponse ⊕ ChatExn)) :=
  if "inflight_semaphore" ∈ llmArgKeys then
    .ok (order.filterMap (fun i =>
      (requests.get? i).map (fun r => Sum.inr (run_chat llmArgKeys r))))
  else .error (.llmError 605 "Semaphores not configured")

/-! ## Executor trace helpers -/

/-- Whether a trace entry records a successful generate() call. -/
def isOkCall : Nat × GenResult → Bool
  | (_, .ok _) => true
  | (_, .err _ _) => false

/-! ## A JSON reader used to establish that the rendering jDump is injective
(proof infrastructure; the program itself only writes). Fuel is structural. -/

/-- Characters that may legally follow a complete rendered value inside a
rendered document: a separator comma, a closing bracket or brace, or the end. -/
def delimOk : List Char → Bool
  | [] => true
  | c :: _ => c = ',' || c = ']' || c = '\x7d'

def hexVal (c : Char) : Option Nat :=
  if 48 ≤ c.toNat && c.toNat ≤ 57 then some (c.toNat - 48)
  else if 97 ≤ c.toNat && c.toNat ≤ 102 then some (c.toNat - 87)
  else if 65 ≤ c.toNat && c.toNat ≤ 70 then some (c.toNat - 55)
  else none

def parseHex4 : List Char → Option (Nat × List Char)
  | c1 :: c2 :: c3 :: c4 :: rest =>
      (match hexVal c1, hexVal c2, hexVal c3, hexVal c4 with
       | some h1, some h2, some h3, some h4 =>
           some (((h1 * 16 + h2) * 16 + h3) * 16 + h4, rest)
       | _, _, _, _ => none)
  | _ => none

def shortEsc (e : Char) : Option Char :=
  if e = '"' then some '"'
  else if e = '\\' then some '\\'
  else if e = 'b' then some '\x08'
  else if e = 't' then some '\x09'
  else if e = 'n' then some '\x0a'
  else if e = 'f' then some '\x0c'
  else if e = 'r' then some '\x0d'
  else none

/-- Read the body of a string literal up to its closing quote, undoing escChar. -/
def parseStrBody : Nat → List Char → Option (List Char × List Char)
  | 0, _ => none
  | _ + 1, [] => none
  | fuel + 1, c :: cs =>
      if c = '"' then some ([], cs)
      else if c = '\\' then
        match cs with
        | [] => none
        | e :: cs1 =>
            if e = 'u' then
              match parseHex4 cs1 with
              | none => none
              | some (h, cs2) =>
                  if 55296 ≤ h && h ≤ 56319 then
                    match cs2 with
                    | '\\' :: 'u' :: cs3 =>
                        (match parseHex4 cs3 with
                         | some (lo, cs4) =>
                             if 56320 ≤ lo && lo ≤ 57343 then
                               (parseStrBody fuel cs4).map (fun p =>
                                 (Char.ofNat (65536 + (h - 55296) * 1024 + (lo - 56320)) :: p.1, p.2))
                             else none
                         | none => none)
                    | _ => none
                  else (parseStrBody fuel cs2).map (fun p => (Char.ofNat h :: p.1, p.2))
            else
              match shortEsc e with
              | some d => (parseStrBody fuel cs1).map (fun p => (d :: p.1, p.2))
              | none => none
      else (parseStrBody fuel cs).map (fun p => (c :: p.1, p.2))

/-- Longest digit run at the head. -/
def takeDigits : List Char → List Char × List Char
  | [] => ([], [])
  | c :: cs =>
      if c.isDigit then
        let p := takeDigits cs
        (c :: p.1, p.2)
      else ([], c :: cs)

def digitsToNat (l : List Char) : Nat :=
  l.foldl (fun acc c => acc * 10 + (c.toNat - 48)) 0

def parseNum : List Char → Option (Int × List Char)
  | [] => none
  | c :: cs1 =>
      if c = '-' then
        let p := takeDigits cs1
        if p.1 = [] then none else some (-(digitsToNat p.1 : Int), p.2)
      else
        let p := takeDigits (c :: cs1)
        if p.1 = [] then none else some ((digitsToNat p.1 : Int), p.2)

mutual
/-- Read one rendered value. -/
def parseV : Nat → List Char → Option (JValue × List Char)
  | 0, _ => none
  | _ + 1, [] => none
  | fuel + 1, c :: cs =>
      if c = 'n' then
        match cs with
        | 'u' :: 'l' :: 'l' :: rest => some (.null, rest)
        | _ => none
      else if c = 't' then
        match cs with
        | 'r' :: 'u' :: 'e' :: rest => some (.bool true, rest)
        | _ => none
      else if c = 'f' then
        match cs with
        | 'a' :: 'l' :: 's' :: 'e' :: rest => some (.bool false, rest)
        | _ => none
      else if c = '"' then
        match parseStrBody (cs.length + 1) cs with
        | some (content, rest) => some (.str ⟨content⟩, rest)
        | none => none
      else if c = '[' then
        if cs.head? = some ']' then some (.arr [], cs.tail)
        else
          match parseV fuel cs with
          | some (v, rest1) =>
              (match parseElems fuel rest1 with
               | some (vs, rest2) => some (.arr (v :: vs), rest2)
               | none => none)
          | none => none
      else if c = '\x7b' then
        if cs.head? = some '\x7d' then some (.obj [], cs.tail)
        else
          match parseMember fuel cs with
          | some (kv, rest1) =>
              (match parseMembers fuel rest1 with
               | some (kvs, rest2) => some (.obj (kv :: kvs), rest2)
               | none => none)
          | none => none
      else
        match parseNum (c :: cs) with
        | some (n, rest) => some (.num n, rest)
        | none => none

/-- Read the remaining array elements up to the closing bracket. -/
def parseElems : Nat → List Char → Option (List JValue × List Char)
  | 0, _ => none
  | _ + 1, [] => none
  | fuel + 1, c :: cs =>
      if c = ']' then some ([], cs)
      else if c = ',' then
        match cs with
        | ' ' :: cs1 =>
            (match parseV fuel cs1 with
             | some (v, rest1) =>
                 (match parseElems fuel rest1 with
                  | some (vs, rest2) => some (v :: vs, rest2)
                  | none => none)
             | none => none)
        | _ => none
      else none

/-- Read one rendered object member (key, ": ", value). -/
def parseMember : Nat → List Char → Option ((String × JValue) × List Char)
  | 0, _ => none
  | _ + 1, [] => none
  | fuel + 1, c :: cs =>
      if c = '"' then
        match parseStrBody (cs.length + 1) cs with
        | some (k, rest1) =>
            (match rest1 with
             | ':' :: ' ' :: cs2 =>
                 (match parseV fuel cs2 with
                  | some (v, rest2) => some ((⟨k⟩, v), rest2)
                  | none => none)
             | _ => none)
        | none => none
      else none

/-- Read the remaining object members up to the closing brace. -/
def parseMembers : Nat → List Char → Option (List (String × JValue) × List Char)
  | 0, _ => none
  | _ + 1, [] => none
  | fuel + 1, c :: cs =>
      if c = '\x7d' then some ([], cs)
      else if c = ',' then
        match cs with
        | ' ' :: cs1 =>
            (match parseMember fuel cs1 with
             | some (kv, rest1) =>
                 (match parseMembers fuel rest1 with
                  | some (kvs, rest2) => some (kv :: kvs, rest2)
                  | none => none)
             | none => none)
        | _ => none
      else none
end

mutual
/-- Fuel measure for the reader round trip. -/
def jsizeV : JValue → Nat
  | .null => 1
  | .bool _ => 1
  | .num _ => 1
  | .str _ => 1
  | .arr xs => 2 + jsizeL xs
  | .obj kvs => 2 + jsizeP kvs

def jsizeL : List JValue → Nat
  | [] => 1
  | v :: vs => 2 + jsizeV v + jsizeL vs

def jsizeP : List (String × JValue) → Nat
  | [] => 1
  | (_, v) :: kvs => 3 + jsizeV v + jsizeP kvs
end

/-! ## Canonical (Python-dict-faithful) values

Python dicts compare as maps; two dicts with the same entries in different
insertion order are equal and serialize identically under sort_keys. The
faithful Lean counterpart of a dict state is therefore an association list in
strictly ascending key order; jCanon checks this recursively. -/

/-- Strict ascending key order (no duplicate keys). -/
def keysStrictSorted : List (String × JValue) → Bool
  | [] => true
  | [_] => true
  | (k1, _) :: (k2, v2) :: rest =>
      strLtL k1.data k2.data && keysStrictSorted ((k2, v2) :: rest)

mutual
def jCanon : JValue → Bool
  | .null => true
  | .bool _ => true
  | .num _ => true
  | .str _ => true
  | .arr xs => jCanonL xs
  | .obj kvs => keysStrictSorted kvs && jCanonP kvs

def jCanonL : List JValue → Bool
  | [] => true
  | v :: vs => jCanon v && jCanonL vs

def jCanonP : List (String × JValue) → Bool
  | [] => true
  | (_, v) :: kvs => jCanon v && jCanonP kvs
end

def objCanon (o : List (String × JValue)) : Bool := jCanon (.obj o)

def optObjCanon : Option (List (String × JValue)) → Bool
  | none => true
  | some o => objCanon o

/-- Canonicality of the dict-typed data inside a message. -/
def msgCanon (m : LLMMessage) : Bool :=
  match m.content with
  | .text _ => true
  | .funcReq f => optObjCanon f.args
  | .funcResp f => jCanon f.result

def targetCanon (t : LLMTarget) : Bool :=
  optObjCanon t.model_config && optObjCanon t.provider_config

def requestCanon (r : LLMRequest) : Bool :=
  r.contents.all msgCanon && optObjCanon r.structured_output

/-- Canonicality of every dict embedded in a plan. -/
def planCanon (p : LLMExecutionPlan) : Bool :=
  requestCanon p.request && targetCanon p.primary && p.fallbacks.all targetCanon

/-! ## Disk-cache round trip helpers -/

/-- The deserialized image of a typed message: same role; text content comes
back as the raw string value, function content as the name plus args/result
after the dict.get None collapse. -/
def typedToD (m : LLMMessage) : DMessage :=
  ⟨m.role,
   match m.content with
   | .text s => .raw (.str s)
   | .funcReq f => .freq (.str f.name) (f.args.map JValue.obj)
   | .funcResp f => .fresp (.str f.name) (if f.result = .null then none else some f.result)⟩

/-- Role and typed content agree between a typed message and a deserialized
message (the equivalence the disk-cache round trip promises). -/
def dContentEquiv : LLMContent → DContent → Bool
  | .text s, .raw (.str s2) => s == s2
  | .funcReq f, .freq (.str n) a =>
      f.name == n && a == f.args.map JValue.obj
  | .funcResp f, .fresp (.str n) r =>
      f.name == n && r == (if f.result = .null then none else some f.result)
  | _, _ => false

def isRoleValue (r : String) : Bool :=
  r = "system" || r = "user" || r = "assistant" || r = "function_request"
    || r = "function_response"

/-- The shape of every file _serialize_message writes: one of the three
content_type tags with correspondingly typed content and a valid role value. -/
def isSerializedSchema : JValue → Bool
  | .obj [("role", .str r), ("content_type", .str "text"), ("content", .str _)] =>
      isRoleValue r
  | .obj [("role", .str r), ("content_type", .str "function_request"),
          ("content", .obj [("name", .str _), ("args", a)])] =>
      isRoleValue r && (a == .null || (match a with | .obj _ => true | _ => false))
  | .obj [("role", .str r), ("content_type", .str "function_response"),
          ("content", .obj [("name", .str _), ("result", _)])] =>
      isRoleValue r
  | _ => false

/-! ## Concrete sample data for witnesses and counterexamples -/

def sampleMsg : LLMMessage := ⟨.user, .text "hi", none⟩

def samplePlan : LLMExecutionPlan :=
  ⟨⟨"r1", [sampleMsg], none, none, none⟩, ⟨"google", "g1", none, none⟩, [],
   ⟨1, ["5xx"], 2⟩⟩

/-- samplePlan with the one message text changed. -/
def samplePlanMsg : LLMExecutionPlan :=
  ⟨⟨"r1", [⟨.user, .text "ho", none⟩], none, none, none⟩, ⟨"google", "g1", none, none⟩, [],
   ⟨1, ["5xx"], 2⟩⟩

/-- samplePlan with the passthrough marker added to the message. -/
def samplePlanMarker : LLMExecutionPlan :=
  ⟨⟨"r1", [⟨.user, .text "hi", some "raw"⟩], none, none, none⟩, ⟨"google", "g1", none, none⟩, [],
   ⟨1, ["5xx"], 2⟩⟩

/-- samplePlan with the primary target model changed. -/
def samplePlanPrimary : LLMExecutionPlan :=
  ⟨⟨"r1", [sampleMsg], none, none, none⟩, ⟨"google", "g2", none, none⟩, [],
   ⟨1, ["5xx"], 2⟩⟩

/-- samplePlan with a fallback target added. -/
def samplePlanFallbacks : LLMExecutionPlan :=
  ⟨⟨"r1", [sampleMsg], none, none, none⟩, ⟨"google", "g1", none, none⟩,
   [⟨"google", "g2", none, none⟩], ⟨1, ["5xx"], 2⟩⟩

/-- samplePlan with max_attempts changed. -/
def samplePlanRetry : LLMExecutionPlan :=
  ⟨⟨"r1", [sampleMsg], none, none, none⟩, ⟨"google", "g1", none, none⟩, [],
   ⟨2, ["5xx"], 2⟩⟩

def sampleEnv : String → Option String :=
  fun k => if k = "GEMINI_API_KEY" then some "secret" else none

def sampleResponseMsg : LLMMessage := ⟨.assistant, .text "ok", none⟩

/-- Oracle for runs whose first call succeeds. -/
def genOkFirst : Nat → GenResult :=
  fun _ => .ok ⟨"r1", some sampleResponseMsg⟩

/-- Oracle whose every call fails with a retryable 500. -/
def genAll500 : Nat → GenResult :=
  fun _ => .err 500 "boom"

/-- Oracle whose first call fails with a non-retryable 404 and whose later
calls succeed. -/
def gen404Then : Nat → GenResult :=
  fun k => if k = 0 then .err 404 "gone" else .ok ⟨"r1", some sampleResponseMsg⟩

/-- A target whose provider config names an unset environment key. -/
def sampleBadTarget : LLMTarget := ⟨"google", "g1", none, none⟩

/-- Plan whose primary google target has no provider_config: LLMClient
construction subscripts the empty dict and raises KeyError. -/
def planBadGoogle : LLMExecutionPlan :=
  ⟨⟨"r1", [sampleMsg], none, none, none⟩, ⟨"google", "g1", none, none⟩,
   [⟨"google", "g2", none, some [("api_key_env", .str "GEMINI_API_KEY")]⟩],
   ⟨1, ["5xx"], 2⟩⟩

def chatReqA : ChatRequest := ⟨"a", "hello", none, none, false, none⟩

def chatReqB : ChatRequest := ⟨"b", "hello", none, none, false, none⟩

def chatKeys : List String := ["semaphore", "inflight_semaphore"]

/-- A schema-mismatched cache file payload: unrecognized content_type, numeric
content. -/
def badPayload : JValue :=
  .obj [("role", .str "user"), ("content_type", .str "weird"), ("content", .num 5)]

def badFs : List (String × FileState) :=
  [(path_for_key "cachedir" "k1", .json badPayload)]

/-- Configuration whose default profile names provider goo, absent from the
providers registry. -/
def cfgMissingProvider : LLMConfig :=
  ⟨[("default", ⟨some "m1", some "goo", none⟩)], [("m1", ⟨none, none, none⟩)], []⟩

/-- The output stream chat produces when the inflight gate is configured: one
yielded item per completed task, failures as values. -/
def chatYield (keys : List String) (requests : List ChatRequest)
    (order : List Nat) : List (ChatResponse ⊕ ChatExn) :=
  order.filterMap (fun i =>
    (requests.get? i).map (fun r => Sum.inr (run_chat keys r)))

/-! ## General lemmas -/

theorem alookup_aset_self {α : Type} (l : List (String × α)) (k : String) (v : α) :
    alookup (aset l k v) k = some v := by
  induction l with
  | nil => simp [aset, alookup]
  | cons p rest ih =>
      obtain ⟨k1, v1⟩ := p
      by_cases h : k1 = k <;> simp [aset, h, alookup, ih]

theorem filterMap_all_some_length {α β : Type} (f : α → Option β) :
    ∀ l : List α, (∀ a ∈ l, (f a).isSome) → (l.filterMap f).length = l.length := by
  intro l
  induction l with
  | nil => simp
  | cons a l ih =>
      intro h
      rcases ho : f a with _ | b
      · exact absurd (h a (by simp)) (by simp [ho])
      · simp only [List.filterMap_cons, ho, List.length_cons]
        rw [ih (fun x hx => h x (by simp [hx]))]

theorem roleOfValue_value (r : LLMRole) : roleOfValue (.str r.value) = some r := by
  cases r <;> rfl

/-! ## Claim C4: get_or_run cache contract -/

/-- C4: get_or_run computes the fingerprint of the plan and, with caching
enabled and a cache configured, a hit returns a response wrapping the cached
message under the request id of the plan with the runner never invoked (zero
runner calls, cache unchanged); a miss invokes the runner exactly once and
stores its result under the fingerprint precisely when the result carries a
message. -/
theorem get_or_run_cache_contract (runner : LLMExecutionPlan → LLMResponse)
    (store : List (String × LLMMessage)) (plan : LLMExecutionPlan) :
    get_or_run runner (some store) plan true =
      match inMemoryGet store (build_cache_key plan) with
      | some cached => ⟨⟨plan.request.request_id, some cached⟩, some store, 0⟩
      | none =>
          match (runner plan).response with
          | some msg => ⟨runner plan, some (inMemorySet store (build_cache_key plan) msg), 1⟩
          | none => ⟨runner plan, some store, 1⟩ := by
  cases h : inMemoryGet store (build_cache_key plan) with
  | none =>
      cases hr : (runner plan).response with
      | none => simp [get_or_run, h, hr]
      | some msg => simp [get_or_run, h, hr]
  | some cached => simp [get_or_run, h]

/-! ## Claim C10: get_or_run without caching touches nothing -/

/-- C10: with use_cache false, or with no cache configured, get_or_run neither
reads nor writes the cache (the cache state is returned unchanged) and the
response is exactly the result of one runner invocation. -/
theorem get_or_run_no_cache_frame (runner : LLMExecutionPlan → LLMResponse)
    (cache : Option (List (String × LLMMessage))) (plan : LLMExecutionPlan)
    (uc : Bool) :
    get_or_run runner cache plan false = ⟨runner plan, cache, 1⟩ ∧
    get_or_run runner none plan uc = ⟨runner plan, none, 1⟩ := by
  constructor
  · cases cache <;> rfl
  · cases uc <;> rfl

/-! ## Claim C7 (corrected): _resolve_target missing references -/

/-- C7 counterexample: a provider name that is referenced by the profile but
absent from the providers registry does not produce an error: resolution
succeeds silently with an empty provider config (providers.get(provider, {})).
-/
theorem resolve_target_silent_provider_default :
    alookup cfgMissingProvider.providers "goo" = none ∧
    resolve_target cfgMissingProvider "default" none none =
      .ok (⟨"goo", "m1", none, none⟩, none) := by
  constructor
  · rfl
  · rfl

/-- C7 amended: an unknown profile name, a missing or unknown model reference,
and a target with no provider named at all each fail with an LLMServiceError
whose message names the missing reference; a provider name referenced but
absent from the providers registry is not an error (see the counterexample). -/
theorem resolve_target_missing_reference_errors (cfg : LLMConfig)
    (pn : String) (mo po : Option (List (String × JValue))) :
    (alookup cfg.profiles pn = none →
      resolve_target cfg pn mo po = .error ("Unknown profile " ++ sqc ++ pn ++ sqc)) ∧
    (∀ profile, alookup cfg.profiles pn = some profile →
      truthyStr profile.model = none →
      resolve_target cfg pn mo po =
        .error ("Profile " ++ sqc ++ pn ++ sqc ++ " references unknown model " ++ sqc
          ++ modelKeyRepr profile.model ++ sqc)) ∧
    (∀ profile mk, alookup cfg.profiles pn = some profile →
      truthyStr profile.model = some mk → alookup cfg.models mk = none →
      resolve_target cfg pn mo po =
        .error ("Profile " ++ sqc ++ pn ++ sqc ++ " references unknown model " ++ sqc
          ++ mk ++ sqc)) ∧
    (∀ profile mk model, alookup cfg.profiles pn = some profile →
      truthyStr profile.model = some mk → alookup cfg.models mk = some model →
      truthyStr profile.provider = none → truthyStr model.default_provider = none →
      resolve_target cfg pn mo po =
        .error ("Model " ++ sqc ++ mk ++ sqc ++ " does not define a default provider")) := by
  refine ⟨?_, ?_, ?_, ?_⟩
  · intro h; simp [resolve_target, h]
  · intro profile h1 h2; simp [resolve_target, h1, h2]
  · intro profile mk h1 h2 h3; simp [resolve_target, h1, h2, h3]
  · intro profile mk model h1 h2 h3 h4 h5
    simp [resolve_target, h1, h2, h3, h4, h5]

/-- Witness for the amended C7 theorem: each error case at a concrete
configuration. -/
theorem resolve_target_missing_reference_errors_witness :
    resolve_target ⟨[], [], []⟩ "p" none none =
      .error ("Unknown profile " ++ sqc ++ "p" ++ sqc) ∧
    resolve_target ⟨[("p", ⟨none, none, none⟩)], [], []⟩ "p" none none =
      .error ("Profile " ++ sqc ++ "p" ++ sqc ++ " references unknown model " ++ sqc
        ++ "None" ++ sqc) ∧
    resolve_target ⟨[("p", ⟨some "m", none, none⟩)], [], []⟩ "p" none none =
      .error ("Profile " ++ sqc ++ "p" ++ sqc ++ " references unknown model " ++ sqc
        ++ "m" ++ sqc) ∧
    resolve_target ⟨[("p", ⟨some "m", none, none⟩)], [("m", ⟨none, none, none⟩)], []⟩
        "p" none none =
      .error ("Model " ++ sqc ++ "m" ++ sqc ++ " does not define a default provider") :=
  ⟨(resolve_target_missing_reference_errors ⟨[], [], []⟩ "p" none none).1 rfl,
   (resolve_target_missing_reference_errors ⟨[("p", ⟨none, none, none⟩)], [], []⟩
      "p" none none).2.1 ⟨none, none, none⟩ rfl rfl,
   (resolve_target_missing_reference_errors ⟨[("p", ⟨some "m", none, none⟩)], [], []⟩
      "p" none none).2.2.1 ⟨some "m", none, none⟩ "m" rfl rfl rfl,
   (resolve_target_missing_reference_errors
      ⟨[("p", ⟨some "m", none, none⟩)], [("m", ⟨none, none, none⟩)], []⟩
      "p" none none).2.2.2 ⟨some "m", none, none⟩ "m" ⟨none, none, none⟩ rfl rfl rfl rfl rfl⟩


/-! ## Claim C9 (corrected): chat captures failures as values -/

/-- C9 counterexample: the value yielded for a failed request does not carry
the request id. Two singleton streams whose only requests differ in id produce
identical outputs, so the yielded value cannot name the failing request. -/
theorem chat_output_forgets_request_id :
    chatReqA.id ≠ chatReqB.id ∧
    chat chatKeys [chatReqA] [0] = chat chatKeys [chatReqB] [0] := by
  constructor
  · decide
  · rfl

/-- C9 amended: per-request failures are captured and yielded as values
carrying the error (but not the request id), never raised out of the stream;
every admitted task is yielded exactly once (one output per request when the
completion order covers the requests); the only condition aborting the
dispatcher itself is the missing inflight backpressure primitive, which raises
(not yields) the status-605 error before anything is produced. -/
theorem chat_failures_are_yielded_values (keys : List String)
    (requests : List ChatRequest) (order : List Nat) :
    ("inflight_semaphore" ∉ keys →
      chat keys requests order = .error (.llmError 605 "Semaphores not configured")) ∧
    ("inflight_semaphore" ∈ keys →
      chat keys requests order = .ok (chatYield keys requests order) ∧
      (∀ o ∈ chatYield keys requests order, ∃ e : ChatExn, o = Sum.inr e) ∧
      (List.Perm order (List.range requests.length) →
        (chatYield keys requests order).length = requests.length)) := by
  constructor
  · intro h; simp [chat, h]
  · intro h
    refine ⟨by simp [chat, chatYield, h], ?_, ?_⟩
    · intro o ho
      rw [chatYield, List.mem_filterMap] at ho
      obtain ⟨i, _, hmap⟩ := ho
      rcases hg : requests.get? i with _ | r
      · rw [hg] at hmap; simp at hmap
      · rw [hg] at hmap
        refine ⟨run_chat keys r, ?_⟩
        simpa using hmap.symm
    · intro hperm
      rw [chatYield, filterMap_all_some_length _ order ?_, hperm.length_eq,
        List.length_range]
      intro i hi
      have hr : i ∈ List.range requests.length := hperm.mem_iff.mp hi
      rw [List.mem_range] at hr
      rcases hg : requests.get? i with _ | r
      · rw [List.get?_eq_none] at hg; omega
      · simp [hg]

/-- Witness for the amended C9 theorem at concrete inputs: a configuration
without the inflight semaphore aborts with the 605 error, and a configured
dispatcher yields the failure of its one request as a value. -/
theorem chat_failures_are_yielded_values_witness :
    chat ["x"] [chatReqA] [0] = .error (.llmError 605 "Semaphores not configured") ∧
    chat chatKeys [chatReqA] [0] = .ok (chatYield chatKeys [chatReqA] [0]) :=
  ⟨(chat_failures_are_yielded_values ["x"] [chatReqA] [0]).1 (by decide),
   ((chat_failures_are_yielded_values chatKeys [chatReqA] [0]).2 (by decide)).1⟩

/-! ## Claim C6 (corrected): disk cache round trip and misses -/

/-- C6 counterexample: two ways the claim fails on the source. A
schema-mismatched cache file (a content_type no serialized message ever
carries, with a numeric content) is not treated as a miss: DiskCache.get
returns a message built from the raw JSON. And a cache file whose bytes are
not valid UTF-8 makes get raise UnicodeDecodeError instead of returning a
miss. -/
theorem diskCacheGet_accepts_schema_mismatch :
    (isSerializedSchema badPayload = false ∧
      diskCacheGet "cachedir" badFs "k1" = .ok (some ⟨.user, .raw (.num 5)⟩)) ∧
    diskCacheGet "cachedir" [(path_for_key "cachedir" "k2", .undecodable)] "k2"
      = .error .unicodeDecodeError := by
  exact ⟨⟨rfl, rfl⟩, rfl⟩

/-- C6 amended: set followed by get on the same directory state returns an
equivalent message (same role, same typed content, passthrough dropped); a
missing file and a corrupt file whose read or parse raises OSError or
JSONDecodeError are misses; but a present file of invalid UTF-8 bytes makes
get raise UnicodeDecodeError (json.load's error subclasses ValueError, which
except (OSError, json.JSONDecodeError) does not catch, and the ValueError
handler guards only _deserialize_message), and a schema-mismatched file can
be returned as a raw message rather than treated as a miss (see the
counterexample). -/
theorem diskCache_roundtrip_and_miss (cacheDir key : String)
    (fs : List (String × FileState)) (m : LLMMessage) :
    (diskCacheGet cacheDir (diskCacheSet cacheDir fs key m) key
        = .ok (some (typedToD m)) ∧
      (typedToD m).role = m.role ∧
      dContentEquiv m.content (typedToD m).content = true) ∧
    (alookup fs (path_for_key cacheDir key) = none →
      diskCacheGet cacheDir fs key = .ok none) ∧
    (alookup fs (path_for_key cacheDir key) = some .corrupt →
      diskCacheGet cacheDir fs key = .ok none) ∧
    (alookup fs (path_for_key cacheDir key) = some .undecodable →
      diskCacheGet cacheDir fs key = .error .unicodeDecodeError) := by
  refine ⟨⟨?_, rfl, ?_⟩, ?_, ?_, ?_⟩
  · rw [diskCacheGet, diskCacheSet, alookup_aset_self]
    obtain ⟨role, content, orig⟩ := m
    cases content with
    | text s =>
        simp [serialize_message, message_to_payload, deserialize_message, alookup,
          roleOfValue_value, typedToD]
    | funcReq f =>
        obtain ⟨nm, args⟩ := f
        cases args with
        | none =>
            simp [serialize_message, message_to_payload, deserialize_message, alookup,
              roleOfValue_value, typedToD, optObjJ, jGetOpt]
        | some o =>
            simp [serialize_message, message_to_payload, deserialize_message, alookup,
              roleOfValue_value, typedToD, optObjJ, jGetOpt]
    | funcResp f =>
        obtain ⟨nm, res⟩ := f
        by_cases hn : res = .null
        · subst hn
          simp [serialize_message, message_to_payload, deserialize_message, alookup,
            roleOfValue_value, typedToD, jGetOpt]
        · cases res <;>
            simp_all [serialize_message, message_to_payload, deserialize_message,
              alookup, roleOfValue_value, typedToD, jGetOpt]
  · obtain ⟨role, content, orig⟩ := m
    cases content with
    | text s => simp [typedToD, dContentEquiv]
    | funcReq f => simp [typedToD, dContentEquiv]
    | funcResp f => simp [typedToD, dContentEquiv]
  · intro h; simp [diskCacheGet, h]
  · intro h; simp [diskCacheGet, h]
  · intro h; simp [diskCacheGet, h]

/-- Witness for the amended C6 theorem at concrete inputs. -/
theorem diskCache_roundtrip_and_miss_witness :
    diskCacheGet "d" (diskCacheSet "d" [] "k" sampleMsg) "k"
      = .ok (some (typedToD sampleMsg)) ∧
    diskCacheGet "d" [] "k" = .ok none ∧
    diskCacheGet "d" [(path_for_key "d" "k", .corrupt)] "k" = .ok none ∧
    diskCacheGet "d" [(path_for_key "d" "k", .undecodable)] "k"
      = .error .unicodeDecodeError :=
  ⟨(diskCache_roundtrip_and_miss "d" "k" [] sampleMsg).1.1,
   (diskCache_roundtrip_and_miss "d" "k" [] sampleMsg).2.1 rfl,
   (diskCache_roundtrip_and_miss "d" "k" [(path_for_key "d" "k", .corrupt)]
      sampleMsg).2.2.1 rfl,
   (diskCache_roundtrip_and_miss "d" "k" [(path_for_key "d" "k", .undecodable)]
      sampleMsg).2.2.2 rfl⟩

/-! ## Executor invariants -/

theorem attemptLoop_prefix (gen : Nat → GenResult) (ro : List String) (i : Nat) :
    ∀ n st, ∃ new,
      (attemptLoop gen ro i n st).1.trace = st.trace ++ new ∧
      (∀ e ∈ new, e.1 = i) ∧
      new.length ≤ n ∧
      (attemptLoop gen ro i n st).1.calls = st.calls + new.length := by
  intro n
  induction n with
  | zero =>
      intro st
      exact ⟨[], by simp [attemptLoop], by simp, by simp, by simp [attemptLoop]⟩
  | succ n ih =>
      intro st
      cases hg : gen st.calls with
      | ok r =>
        refine ⟨[(i, .ok r)], ?_, ?_, ?_, ?_⟩ <;> simp [attemptLoop, hg]
      | err c m =>
        by_cases hm : statusCodeMatches ro c
        · obtain ⟨new, h1, h2, h3, h4⟩ :=
            ih ⟨st.calls + 1, st.trace ++ [(i, .err c m)], some (c, m)⟩
          refine ⟨(i, .err c m) :: new, ?_, ?_, ?_, ?_⟩
          · simp only [attemptLoop, hg, hm, if_pos]
            rw [h1]; simp
          · intro e he
            rcases List.mem_cons.mp he with he | he
            · subst he; rfl
            · exact h2 e he
          · simpa using h3
          · simp only [attemptLoop, hg, hm, if_pos]
            rw [h4]; simp; omega
        · refine ⟨[(i, .err c m)], ?_, ?_, ?_, ?_⟩ <;>
            simp [attemptLoop, hg, hm]

theorem attemptLoop_none_all_err (gen : Nat → GenResult) (ro : List String) (i : Nat) :
    ∀ n st, (∀ e ∈ st.trace, isOkCall e = false) →
      (attemptLoop gen ro i n st).2 = none →
      ∀ e ∈ (attemptLoop gen ro i n st).1.trace, isOkCall e = false := by
  intro n
  induction n with
  | zero => intro st h _; simpa [attemptLoop] using h
  | succ n ih =>
      intro st h hres
      cases hg : gen st.calls with
      | ok r =>
        simp [attemptLoop, hg] at hres
      | err c m =>
        by_cases hm : statusCodeMatches ro c
        · simp only [attemptLoop, hg, hm, if_pos] at hres ⊢
          refine ih _ ?_ hres
          intro e he
          rcases List.mem_append.mp he with he | he
          · exact h e he
          · simp at he; subst he; rfl
        · simp only [attemptLoop, hg, hm, if_neg, Bool.false_eq_true,
            not_false_iff] at hres ⊢
          intro e he
          rcases List.mem_append.mp he with he | he
          · exact h e he
          · simp at he; subst he; rfl

theorem attemptLoop_some_shape (gen : Nat → GenResult) (ro : List String) (i : Nat) :
    ∀ n st r, (∀ e ∈ st.trace, isOkCall e = false) →
      (attemptLoop gen ro i n st).2 = some r →
      (attemptLoop gen ro i n st).1.trace.getLast? = some (i, .ok r) ∧
      (∀ e ∈ (attemptLoop gen ro i n st).1.trace.dropLast, isOkCall e = false) := by
  intro n
  induction n with
  | zero => intro st r _ hres; simp [attemptLoop] at hres
  | succ n ih =>
      intro st r h hres
      cases hg : gen st.calls with
      | ok r2 =>
        simp only [attemptLoop, hg] at hres ⊢
        have he2 : r2 = r := by simpa using hres
        subst he2
        constructor
        · simp [List.getLast?_append]
        · rw [List.dropLast_concat]
          exact h
      | err c m =>
        by_cases hm : statusCodeMatches ro c
        · simp only [attemptLoop, hg, hm, if_pos] at hres ⊢
          refine ih _ r ?_ hres
          intro e he
          rcases List.mem_append.mp he with he | he
          · exact h e he
          · simp at he; subst he; rfl
        · simp [attemptLoop, hg, hm] at hres

theorem targetLoop_trace_indices (env : String → Option String)
    (gen : Nat → GenResult) (retry : RetryPolicy) :
    ∀ (L : List (Nat × LLMTarget)) (cl : List String) (st : AttState),
      ∀ e ∈ (targetLoop env gen retry L cl st).trace,
        e ∈ st.trace ∨ e.1 ∈ L.map Prod.fst := by
  intro L
  induction L with
  | nil =>
      intro cl st e he
      left
      simpa [targetLoop] using he
  | cons p rest ih =>
      obtain ⟨i, t⟩ := p
      intro cl st e he
      have hstep : ∀ cl2 st2, e ∈ (targetLoop env gen retry rest cl2 st2).trace →
          st2.trace = st.trace → e ∈ st.trace ∨ e.1 ∈ ((i, t) :: rest).map Prod.fst := by
        intro cl2 st2 h2 htr
        rcases ih cl2 st2 e h2 with h3 | h3
        · left; rw [htr] at h3; exact h3
        · right; simp only [List.map_cons]; exact List.mem_cons_of_mem _ h3
      have hattstep : ∀ cl2,
          e ∈ (targetLoop env gen retry rest cl2
            (attemptLoop gen retry.retry_on i retry.max_attempts st).1).trace →
          e ∈ st.trace ∨ e.1 ∈ ((i, t) :: rest).map Prod.fst := by
        intro cl2 h2
        rcases ih cl2 _ e h2 with h3 | h3
        · obtain ⟨new, h4, h5, _, _⟩ := attemptLoop_prefix gen retry.retry_on i
            retry.max_attempts st
          rw [h4] at h3
          rcases List.mem_append.mp h3 with h6 | h6
          · left; exact h6
          · right; rw [h5 e h6]; simp
        · right; simp only [List.map_cons]; exact List.mem_cons_of_mem _ h3
      have hvia : ∀ cl2,
          e ∈ (targetLoop env gen retry ((i, t) :: rest) cl st).trace →
          targetLoop env gen retry ((i, t) :: rest) cl st =
            (match (attemptLoop gen retry.retry_on i retry.max_attempts st).2 with
             | some r =>
                 (⟨.ok r, (attemptLoop gen retry.retry_on i retry.max_attempts st).1.trace,
                   cl2⟩ : RunLog)
             | none =>
                 targetLoop env gen retry rest cl2
                   (attemptLoop gen retry.retry_on i retry.max_attempts st).1) →
          e ∈ st.trace ∨ e.1 ∈ ((i, t) :: rest).map Prod.fst := by
        intro cl2 h2 hform
        rw [hform] at h2
        rcases hres : (attemptLoop gen retry.retry_on i retry.max_attempts st).2 with _ | r
        · rw [hres] at h2
          exact hattstep cl2 h2
        · rw [hres] at h2
          simp only at h2
          obtain ⟨new, h4, h5, _, _⟩ := attemptLoop_prefix gen retry.retry_on i
            retry.max_attempts st
          rw [h4] at h2
          rcases List.mem_append.mp h2 with h6 | h6
          · left; exact h6
          · right; rw [h5 e h6]; simp
      by_cases hmem : t.provider ∈ cl
      · refine hvia cl he ?_
        simp only [targetLoop, hmem, if_pos]
      · rcases hinit : llmClientInit env t.provider (t.provider_config.getD []) with e2 | u
        · cases e2 with
          | llmErr c m =>
              simp only [targetLoop, hmem, if_neg, hinit, not_false_iff] at he
              exact hstep cl _ he rfl
          | keyError k =>
              simp only [targetLoop, hmem, if_neg, hinit, not_false_iff] at he
              left; exact he
          | valueError msg =>
              simp only [targetLoop, hmem, if_neg, hinit, not_false_iff] at he
              left; exact he
        · refine hvia (cl ++ [t.provider]) he ?_
          simp only [targetLoop, hmem, if_neg, hinit, not_false_iff]

theorem mem_of_mem_dropLast {α : Type} :
    ∀ (l : List α) (e : α), e ∈ l.dropLast → e ∈ l := by
  intro l
  induction l with
  | nil => intro e he; simp at he
  | cons a l ih =>
      intro e he
      cases l with
      | nil => simp at he
      | cons b m =>
          rcases List.mem_cons.mp he with h | h
          · subst h; simp
          · exact List.mem_cons_of_mem _ (ih e h)

theorem filter_dropLast_le_one {α : Type} (p : α → Bool) :
    ∀ l : List α, (∀ e ∈ l.dropLast, p e = false) → (l.filter p).length ≤ 1 := by
  intro l
  induction l with
  | nil => intro _; simp
  | cons a l ih =>
      intro h
      cases l with
      | nil =>
          cases hp : p a <;> simp [List.filter, hp]
      | cons b m =>
          have ha : p a = false := h a (by simp)
          have h2 : ∀ e ∈ (b :: m).dropLast, p e = false := by
            intro e he
            exact h e (List.mem_cons_of_mem _ he)
          simpa [List.filter, ha] using ih h2

theorem targetLoop_success_shape (env : String → Option String)
    (gen : Nat → GenResult) (retry : RetryPolicy) :
    ∀ (L : List (Nat × LLMTarget)) (cl : List String) (st : AttState),
      (∀ e ∈ st.trace, isOkCall e = false) →
      ((∀ e ∈ (targetLoop env gen retry L cl st).trace.dropLast, isOkCall e = false) ∧
       (∀ r, (targetLoop env gen retry L cl st).result = .ok r →
          (targetLoop env gen retry L cl st).trace.getLast? = some (((targetLoop env gen retry L cl st).trace.getLastD (0, .ok r)).1, .ok r))) := by
  intro L
  induction L with
  | nil =>
      intro cl st h
      constructor
      · intro e he
        rcases hle : st.lastError with _ | cm
        · simp only [targetLoop, hle] at he
          exact h e (mem_of_mem_dropLast _ _ he)
        · simp only [targetLoop, hle] at he
          exact h e (mem_of_mem_dropLast _ _ he)
      · intro r hr
        rcases hle : st.lastError with _ | cm
        · simp [targetLoop, hle] at hr
        · simp [targetLoop, hle] at hr
  | cons p rest ih =>
      obtain ⟨i, t⟩ := p
      intro cl st h
      have hok : ∀ cl2,
          targetLoop env gen retry ((i, t) :: rest) cl st =
            (match (attemptLoop gen retry.retry_on i retry.max_attempts st).2 with
             | some r =>
                 (⟨.ok r, (attemptLoop gen retry.retry_on i retry.max_attempts st).1.trace,
                   cl2⟩ : RunLog)
             | none =>
                 targetLoop env gen retry rest cl2
                   (attemptLoop gen retry.retry_on i retry.max_attempts st).1) →
          ((∀ e ∈ (targetLoop env gen retry ((i, t) :: rest) cl st).trace.dropLast,
              isOkCall e = false) ∧
           (∀ r, (targetLoop env gen retry ((i, t) :: rest) cl st).result = .ok r →
              (targetLoop env gen retry ((i, t) :: rest) cl st).trace.getLast?
                = some (((targetLoop env gen retry ((i, t) :: rest) cl st).trace.getLastD (0, .ok r)).1, .ok r))) := by
        intro cl2 hform
        rcases hres : (attemptLoop gen retry.retry_on i retry.max_attempts st).2 with _ | r
        · rw [hform, hres]
          exact ih cl2 _ (attemptLoop_none_all_err gen retry.retry_on i
            retry.max_attempts st h hres)
        · rw [hform, hres]
          simp only
          obtain ⟨hlast, hdrop⟩ := attemptLoop_some_shape gen retry.retry_on i
            retry.max_attempts st r h hres
          constructor
          · exact hdrop
          · intro r2 hr2
            have : r = r2 := by simpa using hr2
            subst this
            rw [hlast, List.getLastD_eq_getLast?, hlast]
            simp
      by_cases hmem : t.provider ∈ cl
      · exact hok cl (by simp only [targetLoop, hmem, if_pos])
      · rcases hinit : llmClientInit env t.provider (t.provider_config.getD []) with e2 | u
        · cases e2 with
          | llmErr c m =>
              have hform : targetLoop env gen retry ((i, t) :: rest) cl st =
                  targetLoop env gen retry rest cl ⟨st.calls, st.trace, some (c, m)⟩ := by
                simp only [targetLoop, hmem, if_neg, hinit, not_false_iff]
              rw [hform]
              exact ih cl _ h
          | keyError k =>
              have hform : targetLoop env gen retry ((i, t) :: rest) cl st =
                  ⟨.raisedInit (.keyError k), st.trace, cl⟩ := by
                simp only [targetLoop, hmem, if_neg, hinit, not_false_iff]
              rw [hform]
              constructor
              · intro e he
                exact h e (mem_of_mem_dropLast _ _ he)
              · intro r hr
                simp at hr
          | valueError msg =>
              have hform : targetLoop env gen retry ((i, t) :: rest) cl st =
                  ⟨.raisedInit (.valueError msg), st.trace, cl⟩ := by
                simp only [targetLoop, hmem, if_neg, hinit, not_false_iff]
              rw [hform]
              constructor
              · intro e he
                exact h e (mem_of_mem_dropLast _ _ he)
              · intro r hr
                simp at hr
        · exact hok (cl ++ [t.provider])
            (by simp only [targetLoop, hmem, if_neg, hinit, not_false_iff])

theorem map_getLast? {α β : Type} (f : α → β) :
    ∀ l : List α, (l.map f).getLast? = (l.getLast?).map f := by
  intro l
  induction l with
  | nil => simp
  | cons a l ih =>
      cases l with
      | nil => simp
      | cons b m => simpa using ih

/-! ## Claim C1: the executor stops at the first success -/

/-- C1: in every run of run_request, over every plan, client registry and
sequence of per-call outcomes: every generate() call before the last one in
the trace failed (so no call of any kind follows a success, neither on the same
target nor on a later one), a successful result is exactly the outcome of that
final call, and at most one call of the whole run ever succeeded. -/
theorem run_request_first_success (env : String → Option String)
    (gen : Nat → GenResult) (plan : LLMExecutionPlan) (clients0 : List String) :
    (∀ e ∈ (run_request env gen plan clients0).trace.dropLast, isOkCall e = false) ∧
    (∀ r, (run_request env gen plan clients0).result = .ok r →
      ((run_request env gen plan clients0).trace.map Prod.snd).getLast?
        = some (.ok r)) ∧
    (((run_request env gen plan clients0).trace.filter isOkCall).length ≤ 1) := by
  have h := targetLoop_success_shape env gen plan.retry
    (([plan.primary] ++ plan.fallbacks).enum) clients0 ⟨0, [], none⟩ (by simp)
  refine ⟨h.1, ?_, filter_dropLast_le_one _ _ h.1⟩
  intro r hr
  have h2 := h.2 r hr
  rw [map_getLast?]
  rw [show (run_request env gen plan clients0).trace.getLast?
        = some ((((run_request env gen plan clients0).trace.getLastD
            (0, GenResult.ok r))).1, .ok r) from h2]
  rfl

/-- Witness for C1 at a concrete run whose first call succeeds. -/
theorem run_request_first_success_witness :
    (run_request sampleEnv genOkFirst samplePlan ["google"]).result
        = .ok ⟨"r1", some sampleResponseMsg⟩ ∧
    ((run_request sampleEnv genOkFirst samplePlan ["google"]).trace.map
        Prod.snd).getLast? = some (.ok ⟨"r1", some sampleResponseMsg⟩) :=
  ⟨by decide,
   (run_request_first_success sampleEnv genOkFirst samplePlan ["google"]).2.1
     ⟨"r1", some sampleResponseMsg⟩ (by decide)⟩

theorem attemptLoop_all_retry (gen : Nat → GenResult) (ro : List String) (i : Nat)
    (hgen : ∀ k, ∃ c m, gen k = .err c m ∧ statusCodeMatches ro c = true) :
    ∀ n st, (attemptLoop gen ro i n st).2 = none ∧
      (attemptLoop gen ro i n st).1.trace.map Prod.fst
        = st.trace.map Prod.fst ++ List.replicate n i ∧
      (attemptLoop gen ro i n st).1.calls = st.calls + n := by
  intro n
  induction n with
  | zero =>
      intro st
      exact ⟨by simp [attemptLoop], by simp [attemptLoop], by simp [attemptLoop]⟩
  | succ n ih =>
      intro st
      obtain ⟨c, m, hg, hm⟩ := hgen st.calls
      have h2 := ih ⟨st.calls + 1, st.trace ++ [(i, .err c m)], some (c, m)⟩
      refine ⟨?_, ?_, ?_⟩
      · simp only [attemptLoop, hg, hm, if_pos]
        exact h2.1
      · simp only [attemptLoop, hg, hm, if_pos]
        rw [h2.2.1]
        simp [List.replicate_succ]
      · simp only [attemptLoop, hg, hm, if_pos]
        rw [h2.2.2]
        simp
        omega

theorem enumFrom_snd_mem {α : Type} :
    ∀ (l : List α) (n : Nat) (p : Nat × α), p ∈ List.enumFrom n l → p.2 ∈ l := by
  intro l
  induction l with
  | nil => intro n p hp; simp at hp
  | cons a l ih =>
      intro n p hp
      rcases List.mem_cons.mp hp with h | h
      · subst h; simp
      · exact List.mem_cons_of_mem _ (ih (n + 1) p h)

theorem enumFrom_map_fst {α : Type} :
    ∀ (l : List α) (n : Nat), (List.enumFrom n l).map Prod.fst = List.range' n l.length := by
  intro l
  induction l with
  | nil => intro n; simp
  | cons a l ih => intro n; simp [List.range'_succ, ih]

theorem targetLoop_all_retry (env : String → Option String) (gen : Nat → GenResult)
    (retry : RetryPolicy)
    (hgen : ∀ k, ∃ c m, gen k = .err c m ∧
      statusCodeMatches retry.retry_on c = true) :
    ∀ (L : List (Nat × LLMTarget)) (cl : List String) (st : AttState),
      (∀ p ∈ L, p.2.provider ∈ cl ∨
        llmClientInit env p.2.provider (p.2.provider_config.getD []) = .ok ()) →
      (targetLoop env gen retry L cl st).trace.map Prod.fst
        = st.trace.map Prod.fst
          ++ (L.map Prod.fst).flatMap (fun j => List.replicate retry.max_attempts j) := by
  intro L
  induction L with
  | nil => intro cl st _; simp [targetLoop]
  | cons p rest ih =>
      obtain ⟨i, t⟩ := p
      intro cl st hp
      have hstep : ∀ cl2, cl ⊆ cl2 → t.provider ∈ cl2 →
          targetLoop env gen retry ((i, t) :: rest) cl st =
            (match (attemptLoop gen retry.retry_on i retry.max_attempts st).2 with
             | some r =>
                 (⟨.ok r, (attemptLoop gen retry.retry_on i retry.max_attempts st).1.trace,
                   cl2⟩ : RunLog)
             | none =>
                 targetLoop env gen retry rest cl2
                   (attemptLoop gen retry.retry_on i retry.max_attempts st).1) →
          (targetLoop env gen retry ((i, t) :: rest) cl st).trace.map Prod.fst
            = st.trace.map Prod.fst
              ++ (((i, t) :: rest).map Prod.fst).flatMap
                  (fun j => List.replicate retry.max_attempts j) := by
        intro cl2 hsub _ hform
        have hall := attemptLoop_all_retry gen retry.retry_on i hgen retry.max_attempts st
        rw [hform, hall.1]
        simp only
        rw [ih cl2 _ ?_]
        · rw [hall.2.1]
          simp
        · intro q hq
          rcases hp q (List.mem_cons_of_mem _ hq) with h | h
          · exact Or.inl (hsub h)
          · exact Or.inr h
      by_cases hmem : t.provider ∈ cl
      · exact hstep cl (by simp) hmem (by simp only [targetLoop, hmem, if_pos])
      · rcases hp (i, t) (by simp) with h | h
        · exact absurd h hmem
        · refine hstep (cl ++ [t.provider]) (by simp) (by simp) ?_
          simp only [targetLoop, hmem, if_neg, h, not_false_iff]

theorem targetLoop_length_bound (env : String → Option String)
    (gen : Nat → GenResult) (retry : RetryPolicy) :
    ∀ (L : List (Nat × LLMTarget)) (cl : List String) (st : AttState),
      (targetLoop env gen retry L cl st).trace.length
        ≤ st.trace.length + L.length * retry.max_attempts := by
  intro L
  induction L with
  | nil => intro cl st; simp [targetLoop]
  | cons p rest ih =>
      obtain ⟨i, t⟩ := p
      intro cl st
      obtain ⟨new, h1, _, h3, _⟩ :=
        attemptLoop_prefix gen retry.retry_on i retry.max_attempts st
      have hstep : ∀ cl2,
          targetLoop env gen retry ((i, t) :: rest) cl st =
            (match (attemptLoop gen retry.retry_on i retry.max_attempts st).2 with
             | some r =>
                 (⟨.ok r, (attemptLoop gen retry.retry_on i retry.max_attempts st).1.trace,
                   cl2⟩ : RunLog)
             | none =>
                 targetLoop env gen retry rest cl2
                   (attemptLoop gen retry.retry_on i retry.max_attempts st).1) →
          (targetLoop env gen retry ((i, t) :: rest) cl st).trace.length
            ≤ st.trace.length + ((i, t) :: rest).length * retry.max_attempts := by
        intro cl2 hform
        rw [hform]
        rcases hres : (attemptLoop gen retry.retry_on i retry.max_attempts st).2 with _ | r
        · have h5 := ih cl2 (attemptLoop gen retry.retry_on i retry.max_attempts st).1
          simp only
          rw [h1] at h5
          simp only [List.length_append] at h5
          simp only [List.length_cons, Nat.succ_mul]
          omega
        · simp only
          rw [h1]
          simp only [List.length_append, List.length_cons, Nat.succ_mul]
          have : 0 ≤ rest.length * retry.max_attempts := Nat.zero_le _
          omega
      by_cases hmem : t.provider ∈ cl
      · exact hstep cl (by simp only [targetLoop, hmem, if_pos])
      · rcases hinit : llmClientInit env t.provider (t.provider_config.getD []) with e2 | u
        · cases e2 with
          | llmErr c m =>
              have hform : targetLoop env gen retry ((i, t) :: rest) cl st =
                  targetLoop env gen retry rest cl ⟨st.calls, st.trace, some (c, m)⟩ := by
                simp only [targetLoop, hmem, if_neg, hinit, not_false_iff]
              rw [hform]
              have h5 := ih cl ⟨st.calls, st.trace, some (c, m)⟩
              simp only [List.length_cons, Nat.succ_mul]
              simp only at h5
              omega
          | keyError k =>
              have hform : targetLoop env gen retry ((i, t) :: rest) cl st =
                  ⟨.raisedInit (.keyError k), st.trace, cl⟩ := by
                simp only [targetLoop, hmem, if_neg, hinit, not_false_iff]
              rw [hform]
              simp only [List.length_cons, Nat.succ_mul]
              omega
          | valueError msg =>
              have hform : targetLoop env gen retry ((i, t) :: rest) cl st =
                  ⟨.raisedInit (.valueError msg), st.trace, cl⟩ := by
                simp only [targetLoop, hmem, if_neg, hinit, not_false_iff]
              rw [hform]
              simp only [List.length_cons, Nat.succ_mul]
              omega
        · exact hstep (cl ++ [t.provider])
            (by simp only [targetLoop, hmem, if_neg, hinit, not_false_iff])

/-! ## Claim C2: exhaustive retry visits all targets in order -/

/-- C2: when every generate() call fails with a status code matching a
retry_on pattern and every target can construct (or reuse) its client, the
trace of run_request is exactly max_attempts calls against target 0 (the
primary), then max_attempts against target 1 (the first fallback), and so on
through the last fallback: targets strictly in order, exactly max_attempts
calls each, total the sum over all targets. In every run, whatever the
outcomes, the total number of generate() calls is bounded by that sum. -/
theorem run_request_exhaustive_retry (env : String → Option String)
    (gen : Nat → GenResult) (plan : LLMExecutionPlan) (clients0 : List String) :
    ((∀ t ∈ [plan.primary] ++ plan.fallbacks,
        t.provider ∈ clients0 ∨
        llmClientInit env t.provider (t.provider_config.getD []) = .ok ()) →
      (∀ k, ∃ c m, gen k = .err c m ∧
        statusCodeMatches plan.retry.retry_on c = true) →
      (run_request env gen plan clients0).trace.map Prod.fst =
        (List.range (1 + plan.fallbacks.length)).flatMap
          (fun j => List.replicate plan.retry.max_attempts j)) ∧
    (run_request env gen plan clients0).trace.length ≤
      (1 + plan.fallbacks.length) * plan.retry.max_attempts := by
  constructor
  · intro htargets hgen
    have h := targetLoop_all_retry env gen plan.retry hgen
      (([plan.primary] ++ plan.fallbacks).enum) clients0 ⟨0, [], none⟩ ?_
    · rw [run_request, h]
      rw [show ([plan.primary] ++ plan.fallbacks).enum.map Prod.fst
            = List.range' 0 ([plan.primary] ++ plan.fallbacks).length from
          enumFrom_map_fst _ 0]
      simp [← List.range_eq_range', Nat.add_comm]
    · intro p hp
      exact htargets p.2 (enumFrom_snd_mem _ 0 p hp)
  · have h := targetLoop_length_bound env gen plan.retry
      (([plan.primary] ++ plan.fallbacks).enum) clients0 ⟨0, [], none⟩
    rw [run_request]
    have hlen : (([plan.primary] ++ plan.fallbacks).enum).length
        = 1 + plan.fallbacks.length := by
      simp [List.enum, Nat.add_comm]
    rw [hlen] at h
    simpa using h

/-- Witness for C2: a one-target plan with a pre-registered client and an
oracle always failing retryably makes exactly max_attempts = 1 call on
target 0. -/
theorem run_request_exhaustive_retry_witness :
    (run_request sampleEnv genAll500 samplePlan ["google"]).trace.map Prod.fst =
      (List.range (1 + samplePlan.fallbacks.length)).flatMap
        (fun j => List.replicate samplePlan.retry.max_attempts j) :=
  (run_request_exhaustive_retry sampleEnv genAll500 samplePlan ["google"]).1
    (by
      intro t ht
      rw [show t = samplePlan.primary from by simpa [samplePlan] using ht]
      exact Or.inl (by decide))
    (fun k => ⟨500, "boom", rfl, by decide⟩)

theorem patMatch_length : ∀ ps cs : List Char, patMatch ps cs = true → ps.length = cs.length := by
  intro ps
  induction ps with
  | nil => intro cs h; cases cs with
      | nil => rfl
      | cons c cs => simp [patMatch] at h
  | cons p ps ih =>
      intro cs h
      cases cs with
      | nil => simp [patMatch] at h
      | cons c cs =>
          simp only [patMatch, Bool.and_eq_true] at h
          simpa using ih cs h.2

theorem digitChar_isDigit (d : Nat) (hd : d < 10) : (Nat.digitChar d).isDigit = true := by
  interval_cases d <;> rfl

theorem digitChar_eq_five (d : Nat) (hd : d < 10) :
    (('5' : Char) = Nat.digitChar d) ↔ d = 5 := by
  interval_cases d <;> simp <;> decide

theorem natDigitsAux_eq_digits : ∀ fuel n : Nat, n ≤ fuel →
    natDigitsAux fuel n = Nat.digits 10 n := by
  intro fuel
  induction fuel with
  | zero =>
      intro n hn
      interval_cases n
      simp [natDigitsAux]
  | succ fuel ih =>
      intro n hn
      cases n with
      | zero => simp [natDigitsAux]
      | succ k =>
          rw [natDigitsAux]
          have hdiv : (k + 1) / 10 ≤ fuel := by
            have := Nat.div_lt_self (Nat.succ_pos k) (by norm_num : (1 : Nat) < 10)
            omega
          rw [ih ((k + 1) / 10) hdiv,
            Nat.digits_def' (by norm_num : (1 : Nat) < 10) (Nat.succ_pos k)]
          simp

theorem digits_of_three_digit (c : Nat) (h1 : 100 ≤ c) (h2 : c ≤ 999) :
    Nat.digits 10 c = [c % 10, c / 10 % 10, c / 100] := by
  rw [Nat.digits_def' (by norm_num : (1 : Nat) < 10) (by omega : 0 < c)]
  rw [Nat.digits_def' (by norm_num : (1 : Nat) < 10) (by omega : 0 < c / 10)]
  rw [Nat.digits_def' (by norm_num : (1 : Nat) < 10) (by omega : 0 < c / 10 / 10)]
  have h3 : c / 10 / 10 / 10 = 0 := by omega
  have h4 : c / 10 / 10 % 10 = c / 100 := by omega
  rw [h3, h4, Nat.digits_zero]

/-- The "5xx" pattern of the spec matches exactly the status codes 500-599:
the single-character wildcard x (turned into the regex digit class by the
source) matches one digit, so the pattern requires a three-digit code starting
with 5. -/
theorem statusCodeMatches_5xx (code : Nat) :
    statusCodeMatches ["5xx"] code = true ↔ (500 ≤ code ∧ code ≤ 599) := by
  have hdata : ("5xx" : String).data = ['5', 'x', 'x'] := rfl
  rw [show statusCodeMatches ["5xx"] code
        = patMatch ['5', 'x', 'x'] (natChars code) from by
      simp [statusCodeMatches, hdata]]
  constructor
  · intro h
    by_cases h0 : code = 0
    · subst h0; exact absurd h (by decide)
    have hnc : natChars code = (Nat.digits 10 code).reverse.map Nat.digitChar := by
      simp [natChars, h0, natDigitsAux_eq_digits code code le_rfl]
    rw [hnc] at h
    have hlen := patMatch_length _ _ h
    simp only [List.length_map, List.length_reverse, List.length_cons,
      List.length_nil] at hlen
    have hlt : code < 1000 := by
      have h5 := Nat.lt_base_pow_length_digits (b := 10) (m := code) (by norm_num)
      rw [← hlen] at h5
      simpa using h5
    have hge : 100 ≤ code := by
      have h5 := Nat.base_pow_length_digits_le 10 code (by norm_num) h0
      rw [← hlen] at h5
      simp at h5
      omega
    have hdig := digits_of_three_digit code hge (by omega)
    rw [hdig] at h
    simp only [List.reverse_cons, List.reverse_nil, List.nil_append,
      List.cons_append, List.map_cons, List.map_nil, patMatch, Bool.and_eq_true] at h
    have h6 := h.1
    rw [show patChar '5' (Nat.digitChar (code / 100))
          = decide (('5' : Char) = Nat.digitChar (code / 100)) from rfl,
      decide_eq_true_eq] at h6
    have h7 : code / 100 = 5 :=
      (digitChar_eq_five (code / 100) (by omega)).mp h6
    omega
  · intro ⟨hge, hle⟩
    have h0 : code ≠ 0 := by omega
    have hnc : natChars code = (Nat.digits 10 code).reverse.map Nat.digitChar := by
      simp [natChars, h0, natDigitsAux_eq_digits code code le_rfl]
    rw [hnc, digits_of_three_digit code (by omega) (by omega)]
    have h7 : code / 100 = 5 := by omega
    rw [h7]
    simp only [List.reverse_cons, List.reverse_nil, List.nil_append,
      List.cons_append, List.map_cons, List.map_nil, patMatch]
    simp [patChar, digitChar_isDigit (code / 10 % 10) (by omega),
      digitChar_isDigit (code % 10) (by omega)]
    decide

theorem targetLoop_trace_decomp (env : String → Option String)
    (gen : Nat → GenResult) (retry : RetryPolicy) :
    ∀ (L : List (Nat × LLMTarget)) (cl : List String) (st : AttState),
      ∃ tail, (targetLoop env gen retry L cl st).trace = st.trace ++ tail ∧
        ∀ e ∈ tail, e.1 ∈ L.map Prod.fst := by
  intro L
  induction L with
  | nil => intro cl st; exact ⟨[], by simp [targetLoop], by simp⟩
  | cons p rest ih =>
      obtain ⟨i, t⟩ := p
      intro cl st
      obtain ⟨new, h1, h2, _, _⟩ :=
        attemptLoop_prefix gen retry.retry_on i retry.max_attempts st
      have hvia : ∀ cl2,
          targetLoop env gen retry ((i, t) :: rest) cl st =
            (match (attemptLoop gen retry.retry_on i retry.max_attempts st).2 with
             | some r =>
                 (⟨.ok r, (attemptLoop gen retry.retry_on i retry.max_attempts st).1.trace,
                   cl2⟩ : RunLog)
             | none =>
                 targetLoop env gen retry rest cl2
                   (attemptLoop gen retry.retry_on i retry.max_attempts st).1) →
          ∃ tail, (targetLoop env gen retry ((i, t) :: rest) cl st).trace
              = st.trace ++ tail ∧
            ∀ e ∈ tail, e.1 ∈ ((i, t) :: rest).map Prod.fst := by
        intro cl2 hform
        rcases hres : (attemptLoop gen retry.retry_on i retry.max_attempts st).2 with _ | r
        · rw [hform, hres]
          simp only
          obtain ⟨tail2, h3, h4⟩ := ih cl2
            (attemptLoop gen retry.retry_on i retry.max_attempts st).1
          refine ⟨new ++ tail2, ?_, ?_⟩
          · rw [h3, h1, List.append_assoc]
          · intro e he
            rcases List.mem_append.mp he with h5 | h5
            · rw [h2 e h5]; simp
            · simp only [List.map_cons]
              exact List.mem_cons_of_mem _ (h4 e h5)
        · rw [hform, hres]
          simp only
          refine ⟨new, h1, ?_⟩
          intro e he
          rw [h2 e he]
          simp
      by_cases hmem : t.provider ∈ cl
      · exact hvia cl (by simp only [targetLoop, hmem, if_pos])
      · rcases hinit : llmClientInit env t.provider (t.provider_config.getD []) with e2 | u
        · cases e2 with
          | llmErr c m =>
              have hform : targetLoop env gen retry ((i, t) :: rest) cl st =
                  targetLoop env gen retry rest cl ⟨st.calls, st.trace, some (c, m)⟩ := by
                simp only [targetLoop, hmem, if_neg, hinit, not_false_iff]
              rw [hform]
              obtain ⟨tail2, h3, h4⟩ := ih cl ⟨st.calls, st.trace, some (c, m)⟩
              refine ⟨tail2, h3, ?_⟩
              intro e he
              simp only [List.map_cons]
              exact List.mem_cons_of_mem _ (h4 e he)
          | keyError k =>
              have hform : targetLoop env gen retry ((i, t) :: rest) cl st =
                  ⟨.raisedInit (.keyError k), st.trace, cl⟩ := by
                simp only [targetLoop, hmem, if_neg, hinit, not_false_iff]
              rw [hform]
              exact ⟨[], by simp, by simp⟩
          | valueError msg =>
              have hform : targetLoop env gen retry ((i, t) :: rest) cl st =
                  ⟨.raisedInit (.valueError msg), st.trace, cl⟩ := by
                simp only [targetLoop, hmem, if_neg, hinit, not_false_iff]
              rw [hform]
              exact ⟨[], by simp, by simp⟩
        · exact hvia (cl ++ [t.provider])
            (by simp only [targetLoop, hmem, if_neg, hinit, not_false_iff])

theorem filter_eq_nil_of_false {α : Type} (p : α → Bool) :
    ∀ l : List α, (∀ e ∈ l, p e = false) → l.filter p = [] := by
  intro l
  induction l with
  | nil => intro _; rfl
  | cons a l ih =>
      intro h
      have ha : p a = false := h a (by simp)
      simp only [List.filter, ha]
      exact ih (fun e he => h e (List.mem_cons_of_mem _ he))

/-! ## Claim C3: a non-retryable failure advances immediately -/

/-- C3: when the primary target fails its first call with a status code
matching no retry_on pattern, run_request makes exactly one call against the
primary (even with max_attempts budget remaining) and the very next call is
against the first fallback; and the single-digit wildcard pattern "5xx"
matches exactly the status codes 500 through 599. -/
theorem run_request_nonretryable_advances (env : String → Option String)
    (gen : Nat → GenResult) (plan : LLMExecutionPlan) (clients0 : List String)
    (c : Nat) (m : String) (fb : LLMTarget) (fbs : List LLMTarget) :
    (plan.fallbacks = fb :: fbs →
     1 ≤ plan.retry.max_attempts →
     (plan.primary.provider ∈ clients0 ∨
       llmClientInit env plan.primary.provider
         (plan.primary.provider_config.getD []) = .ok ()) →
     gen 0 = .err c m →
     statusCodeMatches plan.retry.retry_on c = false →
     (fb.provider ∈ clients0 ∨ fb.provider = plan.primary.provider ∨
       llmClientInit env fb.provider (fb.provider_config.getD []) = .ok ()) →
     ((run_request env gen plan clients0).trace.take 2
        = [(0, .err c m), (1, gen 1)] ∧
      ((run_request env gen plan clients0).trace.filter
          (fun e => e.1 == 0)).length = 1)) ∧
    (∀ code, statusCodeMatches ["5xx"] code = true ↔ (500 ≤ code ∧ code ≤ 599)) := by
  constructor
  · intro hfb hma hp hg0 hnm hfbi
    obtain ⟨n, hn⟩ : ∃ n, plan.retry.max_attempts = n + 1 :=
      ⟨plan.retry.max_attempts - 1, by omega⟩
    have hatt0 : attemptLoop gen plan.retry.retry_on 0 plan.retry.max_attempts
        ⟨0, [], none⟩ = (⟨1, [(0, .err c m)], some (c, m)⟩, none) := by
      rw [hn]
      simp only [attemptLoop]
      rw [hg0]
      simp [hnm]
    have henum : ([plan.primary] ++ plan.fallbacks).enum
        = (0, plan.primary) :: List.enumFrom 1 plan.fallbacks := rfl
    have hstep : ∃ cl2, run_request env gen plan clients0
        = targetLoop env gen plan.retry (List.enumFrom 1 plan.fallbacks) cl2
            ⟨1, [(0, .err c m)], some (c, m)⟩ ∧
        (fb.provider ∈ cl2 ∨
          llmClientInit env fb.provider (fb.provider_config.getD []) = .ok ()) := by
      by_cases hmem0 : plan.primary.provider ∈ clients0
      · refine ⟨clients0, ?_, ?_⟩
        · rw [run_request, henum]
          simp only [targetLoop, hmem0, if_pos]
          rw [hatt0]
        · rcases hfbi with h | h | h
          · exact Or.inl h
          · exact Or.inl (h ▸ hmem0)
          · exact Or.inr h
      · have hinitok := hp.resolve_left hmem0
        refine ⟨clients0 ++ [plan.primary.provider], ?_, ?_⟩
        · rw [run_request, henum]
          simp only [targetLoop, hmem0, if_neg, hinitok, not_false_iff]
          rw [hatt0]
        · rcases hfbi with h | h | h
          · exact Or.inl (List.mem_append_left _ h)
          · exact Or.inl (by rw [h]; simp)
          · exact Or.inr h
    obtain ⟨cl2, hrun, hfbgo⟩ := hstep
    have henum2 : List.enumFrom 1 plan.fallbacks
        = (1, fb) :: List.enumFrom 2 fbs := by rw [hfb]; rfl
    have hatt1 : ∃ tail1,
        (attemptLoop gen plan.retry.retry_on 1 plan.retry.max_attempts
          ⟨1, [(0, .err c m)], some (c, m)⟩).1.trace
          = [(0, .err c m), (1, gen 1)] ++ tail1 ∧ (∀ e ∈ tail1, e.1 = 1) := by
      rw [hn]
      cases hg1 : gen 1 with
      | ok r =>
          refine ⟨[], ?_, by simp⟩
          simp only [attemptLoop]
          rw [hg1]
          simp
      | err c2 m2 =>
          by_cases hm2 : statusCodeMatches plan.retry.retry_on c2
          · obtain ⟨new, h1, h2, _, _⟩ := attemptLoop_prefix gen plan.retry.retry_on 1 n
              ⟨2, [(0, .err c m), (1, .err c2 m2)], some (c2, m2)⟩
            refine ⟨new, ?_, fun e he => h2 e he⟩
            simp only [attemptLoop]
            rw [hg1]
            simp only [hm2, if_pos]
            exact h1
          · refine ⟨[], ?_, by simp⟩
            simp only [attemptLoop]
            rw [hg1]
            simp [hm2]
    have hdecomp : ∃ tail, (run_request env gen plan clients0).trace
        = [(0, .err c m), (1, gen 1)] ++ tail ∧ ∀ e ∈ tail, e.1 ≠ 0 := by
      rw [hrun, henum2]
      have hvia : ∀ cl3,
          targetLoop env gen plan.retry ((1, fb) :: List.enumFrom 2 fbs) cl2
              ⟨1, [(0, .err c m)], some (c, m)⟩ =
            (match (attemptLoop gen plan.retry.retry_on 1 plan.retry.max_attempts
                ⟨1, [(0, .err c m)], some (c, m)⟩).2 with
             | some r =>
                 (⟨.ok r, (attemptLoop gen plan.retry.retry_on 1 plan.retry.max_attempts
                     ⟨1, [(0, .err c m)], some (c, m)⟩).1.trace, cl3⟩ : RunLog)
             | none =>
                 targetLoop env gen plan.retry (List.enumFrom 2 fbs) cl3
                   (attemptLoop gen plan.retry.retry_on 1 plan.retry.max_attempts
                     ⟨1, [(0, .err c m)], some (c, m)⟩).1) →
          ∃ tail, (targetLoop env gen plan.retry ((1, fb) :: List.enumFrom 2 fbs) cl2
              ⟨1, [(0, .err c m)], some (c, m)⟩).trace
              = [(0, .err c m), (1, gen 1)] ++ tail ∧ ∀ e ∈ tail, e.1 ≠ 0 := by
        intro cl3 hform
        obtain ⟨tail1, h5, h6⟩ := hatt1
        rcases hres : (attemptLoop gen plan.retry.retry_on 1 plan.retry.max_attempts
            ⟨1, [(0, .err c m)], some (c, m)⟩).2 with _ | r
        · rw [hform, hres]
          simp only
          obtain ⟨tail2, h3, h4⟩ := targetLoop_trace_decomp env gen plan.retry
            (List.enumFrom 2 fbs) cl3
            (attemptLoop gen plan.retry.retry_on 1 plan.retry.max_attempts
              ⟨1, [(0, .err c m)], some (c, m)⟩).1
          refine ⟨tail1 ++ tail2, ?_, ?_⟩
          · rw [h3, h5, List.append_assoc]
          · intro e he
            rcases List.mem_append.mp he with h7 | h7
            · rw [h6 e h7]; omega
            · have h8 := h4 e h7
              rw [enumFrom_map_fst] at h8
              have h9 := (List.mem_range'_1.mp h8).1
              omega
        · rw [hform, hres]
          simp only
          exact ⟨tail1, h5, fun e he => by rw [h6 e he]; omega⟩
      by_cases hmemf : fb.provider ∈ cl2
      · exact hvia cl2 (by simp only [targetLoop, hmemf, if_pos])
      · have hfi := hfbgo.resolve_left hmemf
        exact hvia (cl2 ++ [fb.provider])
          (by simp only [targetLoop, hmemf, if_neg, hfi, not_false_iff])
    obtain ⟨tail, hT, hT0⟩ := hdecomp
    constructor
    · rw [hT]; rfl
    · rw [hT]
      have hTf : tail.filter (fun e => e.1 == 0) = [] := by
        refine filter_eq_nil_of_false _ tail (fun e he => ?_)
        simpa using hT0 e he
      simp [List.filter, hTf]
  · exact statusCodeMatches_5xx

/-- Witness for C3: primary fails once with 404 (non-retryable under ["5xx"]),
and the very next call is the first fallback, which succeeds. -/
theorem run_request_nonretryable_advances_witness :
    (run_request sampleEnv gen404Then samplePlanFallbacks ["google"]).trace.take 2
      = [(0, .err 404 "gone"), (1, gen404Then 1)] ∧
    ((run_request sampleEnv gen404Then samplePlanFallbacks ["google"]).trace.filter
        (fun e => e.1 == 0)).length = 1 :=
  (run_request_nonretryable_advances sampleEnv gen404Then samplePlanFallbacks
      ["google"] 404 "gone" ⟨"google", "g2", none, none⟩ []).1
    rfl (by decide) (Or.inl (by decide)) rfl (by decide) (Or.inl (by decide))

/-! ## Claim C8 (corrected): construction failures -/

/-- C8 counterexample: a client-construction failure that is not an LLMError
is not recorded and does not advance to the next target: a google primary with
no provider_config makes LLMClient construction subscript the empty config
dict (KeyError), which propagates out of run_request; the healthy fallback is
never reached and no generate() call is made, although the oracle would have
succeeded at once. -/
theorem run_request_aborts_on_keyerror :
    llmClientInit sampleEnv "google" [] = .error (.keyError "api_key_env") ∧
    genOkFirst 0 = .ok ⟨"r1", some sampleResponseMsg⟩ ∧
    run_request sampleEnv genOkFirst planBadGoogle []
      = ⟨.raisedInit (.keyError "api_key_env"), [], []⟩ := by
  refine ⟨rfl, rfl, ?_⟩
  rfl

/-- C8 amended: an unsupported provider identifier makes client construction
fail with the typed LLMError 600 (a raised value, not a process abort), and a
construction failure raising an LLMError is recorded as last_error while the
executor advances to the next target without any generate() call for the
failed one; however a construction failure raising any other exception
(KeyError on a missing api_key_env entry, ValueError on an unset key)
propagates out of run_request without advancing (see the counterexample). -/
theorem client_construction_failures (env : String → Option String)
    (provider : String) (cfgl : List (String × JValue)) (gen : Nat → GenResult)
    (retry : RetryPolicy) (i : Nat) (t : LLMTarget)
    (rest : List (Nat × LLMTarget)) (clients : List String) (st : AttState) :
    (provider ≠ "google" →
      llmClientInit env provider cfgl =
        .error (.llmErr 600 ("LLMClient not found for provider: " ++ provider))) ∧
    (∀ c m, t.provider ∉ clients →
      llmClientInit env t.provider (t.provider_config.getD []) = .error (.llmErr c m) →
      targetLoop env gen retry ((i, t) :: rest) clients st =
        targetLoop env gen retry rest clients ⟨st.calls, st.trace, some (c, m)⟩) ∧
    (∀ k, t.provider ∉ clients →
      llmClientInit env t.provider (t.provider_config.getD []) =
        .error (.keyError k) →
      targetLoop env gen retry ((i, t) :: rest) clients st =
        ⟨.raisedInit (.keyError k), st.trace, clients⟩) ∧
    (∀ msg, t.provider ∉ clients →
      llmClientInit env t.provider (t.provider_config.getD []) =
        .error (.valueError msg) →
      targetLoop env gen retry ((i, t) :: rest) clients st =
        ⟨.raisedInit (.valueError msg), st.trace, clients⟩) := by
  refine ⟨?_, ?_, ?_, ?_⟩
  · intro h
    simp [llmClientInit, h]
  · intro c m hmem hinit
    simp only [targetLoop, hmem, if_neg, hinit, not_false_iff]
  · intro k hmem hinit
    simp only [targetLoop, hmem, if_neg, hinit, not_false_iff]
  · intro msg hmem hinit
    simp only [targetLoop, hmem, if_neg, hinit, not_false_iff]

/-- Witness for the amended C8 theorem at concrete inputs: an unsupported
provider identifier gives the typed 600 error and makes the executor record it
and advance; a google target with an empty config aborts with KeyError. -/
theorem client_construction_failures_witness :
    llmClientInit sampleEnv "azure" [] =
      .error (.llmErr 600 ("LLMClient not found for provider: " ++ "azure")) ∧
    targetLoop sampleEnv genOkFirst samplePlan.retry
        [(0, ⟨"azure", "m1", none, none⟩)] [] ⟨0, [], none⟩ =
      targetLoop sampleEnv genOkFirst samplePlan.retry [] []
        ⟨0, [], some (600, "LLMClient not found for provider: azure")⟩ ∧
    targetLoop sampleEnv genOkFirst samplePlan.retry
        [(0, ⟨"google", "m1", none, none⟩)] [] ⟨0, [], none⟩ =
      ⟨.raisedInit (.keyError "api_key_env"), [], []⟩ :=
  ⟨(client_construction_failures sampleEnv "azure" [] genOkFirst samplePlan.retry
      0 ⟨"azure", "m1", none, none⟩ [] [] ⟨0, [], none⟩).1 (by decide),
   (client_construction_failures sampleEnv "azure" [] genOkFirst samplePlan.retry
      0 ⟨"azure", "m1", none, none⟩ [] [] ⟨0, [], none⟩).2.1
     600 "LLMClient not found for provider: azure" (by decide) rfl,
   (client_construction_failures sampleEnv "google" [] genOkFirst samplePlan.retry
      0 ⟨"google", "m1", none, none⟩ [] [] ⟨0, [], none⟩).2.2.1
     "api_key_env" (by decide) rfl⟩

/-! ## Fingerprint rendering round trip (C5 infrastructure) -/

theorem hexVal_digitChar (d : Nat) (hd : d < 16) : hexVal (Nat.digitChar d) = some d := by
  interval_cases d <;> rfl

theorem parseHex4_spec (n : Nat) (hn : n < 65536) (rest : List Char) :
    parseHex4 (Nat.digitChar (n / 4096 % 16) :: Nat.digitChar (n / 256 % 16) ::
      Nat.digitChar (n / 16 % 16) :: Nat.digitChar (n % 16) :: rest) = some (n, rest) := by
  simp only [parseHex4]
  rw [hexVal_digitChar _ (by omega), hexVal_digitChar _ (by omega),
    hexVal_digitChar _ (by omega), hexVal_digitChar _ (by omega)]
  simp only
  have hv : ((n / 4096 % 16 * 16 + n / 256 % 16) * 16 + n / 16 % 16) * 16 + n % 16 = n := by
    omega
  rw [hv]

theorem char_valid_nat (c : Char) :
    c.toNat < 55296 ∨ (57343 < c.toNat ∧ c.toNat < 1114112) := by
  have h := c.valid
  simp [Nat.isValidChar, UInt32.isValidChar] at h
  rcases h with h | h
  · left; exact h
  · right; exact h

theorem parseStrBody_escape : ∀ (l : List Char) (fuel : Nat) (rest : List Char),
    l.length + 1 ≤ fuel →
    parseStrBody fuel (l.flatMap escChar ++ '"' :: rest) = some (l, rest) := by
  intro l
  induction l with
  | nil =>
      intro fuel rest hf
      obtain ⟨f, rfl⟩ : ∃ f, fuel = f + 1 := ⟨fuel - 1, by omega⟩
      simp [parseStrBody]
  | cons c l ih =>
      intro fuel rest hf
      obtain ⟨f, rfl⟩ : ∃ f, fuel = f + 1 := ⟨fuel - 1, by omega⟩
      have hih : ∀ rest2 : List Char,
          parseStrBody f (l.flatMap escChar ++ '"' :: rest2) = some (l, rest2) := by
        intro rest2
        refine ih f rest2 ?_
        simp at hf
        omega
      rw [show (c :: l).flatMap escChar ++ '"' :: rest
            = escChar c ++ (l.flatMap escChar ++ '"' :: rest) from by
          simp [List.flatMap_cons, List.append_assoc]]
      by_cases h1 : c = '"'
      · subst h1
        simp [escChar, parseStrBody, shortEsc, hih]
      · by_cases h2 : c = '\\'
        · subst h2
          simp [escChar, parseStrBody, shortEsc, hih]
        · by_cases h3 : c = '\x08'
          · subst h3
            simp [escChar, parseStrBody, shortEsc, hih]
          · by_cases h4 : c = '\x09'
            · subst h4
              simp [escChar, parseStrBody, shortEsc, hih]
            · by_cases h5 : c = '\x0a'
              · subst h5
                simp [escChar, parseStrBody, shortEsc, hih]
              · by_cases h6 : c = '\x0c'
                · subst h6
                  simp [escChar, parseStrBody, shortEsc, hih]
                · by_cases h7 : c = '\x0d'
                  · subst h7
                    simp [escChar, parseStrBody, shortEsc, hih]
                  · by_cases h8 : (c.toNat < 32 || 126 < c.toNat) = true
                    · have hesc : escChar c =
                          (if c.toNat < 65536 then uEsc c.toNat
                           else uEsc (55296 + (c.toNat - 65536) / 1024)
                             ++ uEsc (56320 + (c.toNat - 65536) % 1024)) := by
                        rw [escChar, if_neg h1, if_neg h2, if_neg h3, if_neg h4,
                          if_neg h5, if_neg h6, if_neg h7, if_pos h8]
                      by_cases h9 : c.toNat < 65536
                      · rw [hesc, if_pos h9]
                        rw [show uEsc c.toNat ++ (l.flatMap escChar ++ '"' :: rest)
                              = '\\' :: 'u' :: (Nat.digitChar (c.toNat / 4096 % 16) ::
                                Nat.digitChar (c.toNat / 256 % 16) ::
                                Nat.digitChar (c.toNat / 16 % 16) ::
                                Nat.digitChar (c.toNat % 16) ::
                                (l.flatMap escChar ++ '"' :: rest)) from rfl]
                        rw [parseStrBody]
                        rw [if_neg (by decide), if_pos rfl, if_pos rfl]
                        rw [parseHex4_spec c.toNat h9]
                        simp only
                        have hsur : (55296 ≤ c.toNat && c.toNat ≤ 56319) = false := by
                          rcases char_valid_nat c with h | h
                          · simp only [Bool.and_eq_false_iff]
                            left
                            simp only [decide_eq_false_iff_not]
                            omega
                          · simp only [Bool.and_eq_false_iff]
                            right
                            simp only [decide_eq_false_iff_not]
                            omega
                        rw [hsur, if_neg (by simp)]
                        rw [hih rest]
                        simp only [Option.map]
                        rw [Char.ofNat_toNat]
                      · rw [hesc, if_neg h9]
                        have hv : c.toNat - 65536 < 1048576 := by
                          rcases char_valid_nat c with h | h
                          · omega
                          · omega
                        have hhi : 55296 + (c.toNat - 65536) / 1024 < 65536 := by omega
                        have hlo : 56320 + (c.toNat - 65536) % 1024 < 65536 := by
                          have := Nat.mod_lt (c.toNat - 65536) (show 0 < 1024 by norm_num)
                          omega
                        rw [show (uEsc (55296 + (c.toNat - 65536) / 1024)
                              ++ uEsc (56320 + (c.toNat - 65536) % 1024))
                              ++ (l.flatMap escChar ++ '"' :: rest)
                              = '\\' :: 'u' ::
                                (Nat.digitChar ((55296 + (c.toNat - 65536) / 1024) / 4096 % 16) ::
                                 Nat.digitChar ((55296 + (c.toNat - 65536) / 1024) / 256 % 16) ::
                                 Nat.digitChar ((55296 + (c.toNat - 65536) / 1024) / 16 % 16) ::
                                 Nat.digitChar ((55296 + (c.toNat - 65536) / 1024) % 16) ::
                                ('\\' :: 'u' ::
                                 (Nat.digitChar ((56320 + (c.toNat - 65536) % 1024) / 4096 % 16) ::
                                  Nat.digitChar ((56320 + (c.toNat - 65536) % 1024) / 256 % 16) ::
                                  Nat.digitChar ((56320 + (c.toNat - 65536) % 1024) / 16 % 16) ::
                                  Nat.digitChar ((56320 + (c.toNat - 65536) % 1024) % 16) ::
                                  (l.flatMap escChar ++ '"' :: rest)))) from by
                            simp [uEsc]]
                        rw [parseStrBody]
                        rw [if_neg (by decide), if_pos rfl, if_pos rfl]
                        rw [parseHex4_spec _ hhi]
                        simp only
                        have hsur : (55296 ≤ 55296 + (c.toNat - 65536) / 1024 &&
                            55296 + (c.toNat - 65536) / 1024 ≤ 56319) = true := by
                          simp only [Bool.and_eq_true, decide_eq_true_eq]
                          omega
                        rw [hsur, if_pos rfl]
                        rw [parseHex4_spec _ hlo]
                        simp only
                        have hsur2 : (56320 ≤ 56320 + (c.toNat - 65536) % 1024 &&
                            56320 + (c.toNat - 65536) % 1024 ≤ 57343) = true := by
                          simp only [Bool.and_eq_true, decide_eq_true_eq]
                          constructor
                          · omega
                          · have := Nat.mod_lt (c.toNat - 65536) (show 0 < 1024 by norm_num)
                            omega
                        rw [hsur2, if_pos rfl]
                        rw [hih rest]
                        simp only [Option.map]
                        have hcomb : 65536 + (55296 + (c.toNat - 65536) / 1024 - 55296) * 1024
                            + (56320 + (c.toNat - 65536) % 1024 - 56320) = c.toNat := by
                          omega
                        rw [hcomb, Char.ofNat_toNat]
                    · have hesc : escChar c = [c] := by
                        rw [escChar, if_neg h1, if_neg h2, if_neg h3, if_neg h4,
                          if_neg h5, if_neg h6, if_neg h7, if_neg h8]
                      rw [hesc]
                      rw [show [c] ++ (l.flatMap escChar ++ '"' :: rest)
                            = c :: (l.flatMap escChar ++ '"' :: rest) from rfl]
                      rw [parseStrBody.eq_def]
                      simp only [if_neg h1, if_neg h2]
                      rw [hih rest]
                      simp only [Option.map]

theorem digitsToNat_go : ∀ ds : List Nat, (∀ d ∈ ds, d < 10) → ∀ acc : Nat,
    List.foldl (fun acc c => acc * 10 + (c.toNat - 48)) acc
        (ds.reverse.map Nat.digitChar)
      = acc * 10 ^ ds.length + Nat.ofDigits 10 ds := by
  intro ds
  induction ds with
  | nil => intro _ acc; simp [Nat.ofDigits]
  | cons d tl ih =>
      intro h acc
      simp only [List.reverse_cons, List.map_append, List.map_cons, List.map_nil,
        List.foldl_append, List.foldl_cons, List.foldl_nil]
      rw [ih (fun x hx => h x (List.mem_cons_of_mem _ hx)) acc]
      have hd : (Nat.digitChar d).toNat - 48 = d := by
        have hd10 := h d (by simp)
        interval_cases d <;> rfl
      rw [hd, Nat.ofDigits_cons, List.length_cons, pow_succ]
      ring

theorem digitsToNat_natChars (n : Nat) : digitsToNat (natChars n) = n := by
  by_cases h0 : n = 0
  · subst h0; rfl
  · rw [show natChars n = (Nat.digits 10 n).reverse.map Nat.digitChar from by
        simp [natChars, h0, natDigitsAux_eq_digits n n le_rfl]]
    rw [digitsToNat,
      digitsToNat_go _ (fun d hd => Nat.digits_lt_base (by norm_num) hd) 0]
    simp [Nat.ofDigits_digits]

theorem natChars_all_digits (n : Nat) : ∀ c ∈ natChars n, c.isDigit = true := by
  by_cases h0 : n = 0
  · subst h0; intro c hc; simp [natChars] at hc; subst hc; rfl
  · intro c hc
    rw [show natChars n = (Nat.digits 10 n).reverse.map Nat.digitChar from by
        simp [natChars, h0, natDigitsAux_eq_digits n n le_rfl]] at hc
    simp only [List.mem_map, List.mem_reverse] at hc
    obtain ⟨d, hd, rfl⟩ := hc
    exact digitChar_isDigit d (Nat.digits_lt_base (by norm_num) hd)

theorem natChars_ne_nil (n : Nat) : natChars n ≠ [] := by
  by_cases h0 : n = 0
  · subst h0; simp [natChars]
  · rw [show natChars n = (Nat.digits 10 n).reverse.map Nat.digitChar from by
        simp [natChars, h0, natDigitsAux_eq_digits n n le_rfl]]
    simp [Nat.digits_ne_nil_iff_ne_zero.mpr h0]

theorem takeDigits_spec : ∀ (ds rest : List Char), (∀ c ∈ ds, c.isDigit = true) →
    (∀ c, rest.head? = some c → c.isDigit = false) →
    takeDigits (ds ++ rest) = (ds, rest) := by
  intro ds
  induction ds with
  | nil =>
      intro rest _ hrest
      cases rest with
      | nil => rfl
      | cons c cs =>
          have hc := hrest c rfl
          simp [takeDigits, hc]
  | cons d tl ih =>
      intro rest h hrest
      have hd : d.isDigit = true := h d (by simp)
      simp only [List.cons_append, takeDigits, hd, if_pos, List.append_eq]
      rw [ih rest (fun c hc => h c (List.mem_cons_of_mem _ hc)) hrest]

theorem parseNum_intChars (i : Int) (rest : List Char)
    (hrest : ∀ c, rest.head? = some c → c.isDigit = false) :
    parseNum (intChars i ++ rest) = some (i, rest) := by
  by_cases hneg : i < 0
  · rw [show intChars i = '-' :: natChars i.natAbs from by simp [intChars, hneg]]
    rw [List.cons_append, parseNum, if_pos rfl]
    rw [takeDigits_spec (natChars i.natAbs) rest (natChars_all_digits _) hrest]
    simp only
    rw [if_neg (natChars_ne_nil _)]
    rw [digitsToNat_natChars]
    have : -(i.natAbs : Int) = i := by omega
    rw [this]
  · rw [show intChars i = natChars i.natAbs from by simp [intChars, hneg]]
    obtain ⟨c, cs, hcc⟩ : ∃ c cs, natChars i.natAbs = c :: cs := by
      rcases hx : natChars i.natAbs with _ | ⟨c, cs⟩
      · exact absurd hx (natChars_ne_nil _)
      · exact ⟨c, cs, rfl⟩
    have hcd : c.isDigit = true := by
      have := natChars_all_digits i.natAbs c (by rw [hcc]; simp)
      exact this
    have hcm : ¬c = '-' := by
      intro he
      subst he
      exact absurd hcd (by decide)
    rw [hcc, List.cons_append, parseNum, if_neg hcm]
    rw [show c :: (cs ++ rest) = (c :: cs) ++ rest from rfl, ← hcc]
    rw [takeDigits_spec (natChars i.natAbs) rest (natChars_all_digits _) hrest]
    simp only
    rw [if_neg (natChars_ne_nil _)]
    rw [digitsToNat_natChars]
    have : (i.natAbs : Int) = i := by omega
    rw [this]

theorem numHead (i : Int) : ∃ c cs, intChars i = c :: cs ∧ (c = '-' ∨ c.isDigit = true) := by
  by_cases hneg : i < 0
  · exact ⟨'-', natChars i.natAbs, by simp [intChars, hneg], Or.inl rfl⟩
  · obtain ⟨c, cs, hcc⟩ : ∃ c cs, natChars i.natAbs = c :: cs := by
      rcases hx : natChars i.natAbs with _ | ⟨c, cs⟩
      · exact absurd hx (natChars_ne_nil _)
      · exact ⟨c, cs, rfl⟩
    refine ⟨c, cs, by simp [intChars, hneg, hcc], Or.inr ?_⟩
    exact natChars_all_digits i.natAbs c (by rw [hcc]; simp)

theorem jDump_head (v : JValue) :
    ∃ c cs, jDump v = c :: cs ∧
      (c = 'n' ∨ c = 't' ∨ c = 'f' ∨ c = '"' ∨ c = '[' ∨ c = '\x7b'
        ∨ c = '-' ∨ c.isDigit = true) := by
  cases v with
  | null => exact ⟨'n', _, rfl, by simp⟩
  | bool b => cases b with
      | true => exact ⟨'t', _, rfl, by simp⟩
      | false => exact ⟨'f', _, rfl, by simp⟩
  | num i =>
      obtain ⟨c, cs, hcc, hc⟩ := numHead i
      exact ⟨c, cs, by rw [jDump, hcc], by tauto⟩
  | str s => exact ⟨'"', _, rfl, by simp⟩
  | arr xs => cases xs with
      | nil => exact ⟨'[', _, rfl, by simp⟩
      | cons x xs => exact ⟨'[', _, rfl, by simp⟩
  | obj kvs => cases kvs with
      | nil => exact ⟨'\x7b', _, rfl, by simp⟩
      | cons p ps => exact ⟨'\x7b', _, rfl, by simp⟩

theorem delimOk_not_digit (rest : List Char) (h : delimOk rest = true) :
    ∀ c, rest.head? = some c → c.isDigit = false := by
  intro c hc
  cases rest with
  | nil => simp at hc
  | cons r rs =>
      simp only [List.head?_cons, Option.some_inj] at hc
      subst hc
      simp only [delimOk, Bool.or_eq_true, decide_eq_true_eq] at h
      rcases h with (h | h) | h <;> subst h <;> rfl

theorem jsizeV_pos (v : JValue) : 1 ≤ jsizeV v := by
  cases v <;> unfold jsizeV <;> omega

theorem jsizeL_pos (xs : List JValue) : 1 ≤ jsizeL xs := by
  cases xs <;> unfold jsizeL <;> omega

theorem jsizeP_pos (ps : List (String × JValue)) : 1 ≤ jsizeP ps := by
  cases ps with
  | nil => unfold jsizeP; omega
  | cons p ps => obtain ⟨k, v⟩ := p; unfold jsizeP; omega

theorem escChar_length_pos (c : Char) : 1 ≤ (escChar c).length := by
  unfold escChar
  split_ifs <;> simp [uEsc]

theorem escLen (l : List Char) : l.length ≤ (l.flatMap escChar).length := by
  induction l with
  | nil => simp
  | cons c cs ih =>
      simp only [List.flatMap_cons, List.length_append, List.length_cons]
      have := escChar_length_pos c
      omega

theorem delimOk_elems (xs : List JValue) (rest : List Char) :
    delimOk (jDumpElems xs ++ ']' :: rest) = true := by
  cases xs <;> rfl

theorem delimOk_members (ps : List (String × JValue)) (rest : List Char) :
    delimOk (jDumpMembers ps ++ '\x7d' :: rest) = true := by
  cases ps <;> rfl

theorem jDump_head_ne_brk (v : JValue) (l : List Char) :
    ¬(jDump v ++ l).head? = some ']' ∧ ¬(jDump v ++ l).head? = some '\x7d' := by
  obtain ⟨c, cs, hcc, hc⟩ := jDump_head v
  rw [hcc, List.cons_append, List.head?_cons]
  constructor <;> intro h <;> injection h with h <;> subst h <;>
    rcases hc with h2 | h2 | h2 | h2 | h2 | h2 | h2 | h2 <;> exact absurd h2 (by decide)

/-- Reading back a rendered value (and element/member tails) recovers the value
exactly: jDump has a computable left inverse, for any fuel at least the value
size and any legal following delimiter. -/
theorem parse_roundtrip : ∀ fuel : Nat,
    (∀ v rest, jsizeV v ≤ fuel → delimOk rest = true →
        parseV fuel (jDump v ++ rest) = some (v, rest)) ∧
    (∀ xs rest, jsizeL xs ≤ fuel →
        parseElems fuel (jDumpElems xs ++ ']' :: rest) = some (xs, rest)) ∧
    (∀ (p : String × JValue) rest, 1 + jsizeV p.2 ≤ fuel → delimOk rest = true →
        parseMember fuel (jDumpMember p ++ rest) = some (p, rest)) ∧
    (∀ ps rest, jsizeP ps ≤ fuel →
        parseMembers fuel (jDumpMembers ps ++ '\x7d' :: rest) = some (ps, rest)) := by
  intro fuel
  induction fuel with
  | zero =>
      refine ⟨?_, ?_, ?_, ?_⟩
      · intro v rest hsz _; exact absurd hsz (by have := jsizeV_pos v; omega)
      · intro xs rest hsz; exact absurd hsz (by have := jsizeL_pos xs; omega)
      · intro p rest hsz _; exact absurd hsz (by omega)
      · intro ps rest hsz; exact absurd hsz (by have := jsizeP_pos ps; omega)
  | succ fuel ih =>
      obtain ⟨ihV, ihE, ihM, ihP⟩ := ih
      refine ⟨?_, ?_, ?_, ?_⟩
      · intro v rest hsz hrest
        cases v with
        | null => rfl
        | bool b => cases b with
            | true => rfl
            | false => rfl
        | num i =>
            obtain ⟨c, cs, hcc, hc⟩ := numHead i
            rw [show jDump (.num i) = intChars i from rfl, hcc, List.cons_append]
            rcases hc with rfl | hdig
            · rw [show parseV (fuel + 1) ('-' :: (cs ++ rest))
                    = (match parseNum ('-' :: (cs ++ rest)) with
                       | some (n, r) => some (.num n, r)
                       | none => none) from rfl]
              rw [show ('-' :: (cs ++ rest) : List Char) = ('-' :: cs) ++ rest from rfl, ← hcc,
                parseNum_intChars i rest (delimOk_not_digit rest hrest)]
            · have h1 : ¬c = 'n' := fun h => by subst h; exact absurd hdig (by decide)
              have h2 : ¬c = 't' := fun h => by subst h; exact absurd hdig (by decide)
              have h3 : ¬c = 'f' := fun h => by subst h; exact absurd hdig (by decide)
              have h4 : ¬c = '"' := fun h => by subst h; exact absurd hdig (by decide)
              have h5 : ¬c = '[' := fun h => by subst h; exact absurd hdig (by decide)
              have h6 : ¬c = '\x7b' := fun h => by subst h; exact absurd hdig (by decide)
              rw [parseV.eq_def]
              simp only [if_neg h1, if_neg h2, if_neg h3, if_neg h4, if_neg h5, if_neg h6]
              rw [show (c :: (cs ++ rest) : List Char) = (c :: cs) ++ rest from rfl, ← hcc,
                parseNum_intChars i rest (delimOk_not_digit rest hrest)]
        | str s =>
            rw [show jDump (.str s) ++ rest
                  = '"' :: (s.data.flatMap escChar ++ '"' :: rest) from by
                simp [jDump, escStr]]
            rw [show parseV (fuel + 1) ('"' :: (s.data.flatMap escChar ++ '"' :: rest))
                  = (match parseStrBody ((s.data.flatMap escChar ++ '"' :: rest).length + 1)
                        (s.data.flatMap escChar ++ '"' :: rest) with
                     | some (content, r2) => some (.str ⟨content⟩, r2)
                     | none => none) from rfl]
            rw [parseStrBody_escape s.data _ rest (by
              have := escLen s.data
              simp only [List.length_append, List.length_cons]
              omega)]
        | arr xs =>
            cases xs with
            | nil => rfl
            | cons x xs =>
                have hx1 : jsizeV x ≤ fuel := by simp [jsizeV, jsizeL] at hsz; omega
                have hx2 : jsizeL xs ≤ fuel := by simp [jsizeV, jsizeL] at hsz; omega
                rw [show jDump (.arr (x :: xs)) ++ rest
                      = '[' :: (jDump x ++ (jDumpElems xs ++ ']' :: rest)) from by
                    simp [jDump, List.append_assoc, List.cons_append]]
                rw [show parseV (fuel + 1) ('[' :: (jDump x ++ (jDumpElems xs ++ ']' :: rest)))
                      = (if (jDump x ++ (jDumpElems xs ++ ']' :: rest)).head? = some ']' then
                           some (.arr [], (jDump x ++ (jDumpElems xs ++ ']' :: rest)).tail)
                         else
                           match parseV fuel (jDump x ++ (jDumpElems xs ++ ']' :: rest)) with
                           | some (v, rest1) =>
                               (match parseElems fuel rest1 with
                                | some (vs, rest2) => some (.arr (v :: vs), rest2)
                                | none => none)
                           | none => none) from rfl]
                rw [if_neg (jDump_head_ne_brk x _).1]
                rw [ihV x _ hx1 (delimOk_elems xs rest)]
                simp only
                rw [ihE xs rest hx2]
        | obj kvs =>
            cases kvs with
            | nil => rfl
            | cons p ps =>
                obtain ⟨k, v⟩ := p
                have hm : 1 + jsizeV v ≤ fuel := by simp [jsizeV, jsizeP] at hsz; omega
                have hp : jsizeP ps ≤ fuel := by simp [jsizeV, jsizeP] at hsz; omega
                rw [show jDump (.obj ((k, v) :: ps)) ++ rest
                      = '\x7b' :: (jDumpMember (k, v) ++ (jDumpMembers ps ++ '\x7d' :: rest))
                    from by simp [jDump, List.append_assoc, List.cons_append]]
                have hne : ¬(jDumpMember (k, v) ++ (jDumpMembers ps ++ '\x7d' :: rest)).head?
                    = some '\x7d' := by
                  rw [show (jDumpMember (k, v) ++ (jDumpMembers ps ++ '\x7d' :: rest)).head?
                        = some '"' from by simp [jDumpMember, escStr]]
                  decide
                rw [show parseV (fuel + 1)
                      ('\x7b' :: (jDumpMember (k, v) ++ (jDumpMembers ps ++ '\x7d' :: rest)))
                      = (if (jDumpMember (k, v) ++ (jDumpMembers ps ++ '\x7d' :: rest)).head?
                            = some '\x7d' then
                           some (.obj [],
                             (jDumpMember (k, v) ++ (jDumpMembers ps ++ '\x7d' :: rest)).tail)
                         else
                           match parseMember fuel
                               (jDumpMember (k, v) ++ (jDumpMembers ps ++ '\x7d' :: rest)) with
                           | some (kv, rest1) =>
                               (match parseMembers fuel rest1 with
                                | some (kvs, rest2) => some (.obj (kv :: kvs), rest2)
                                | none => none)
                           | none => none) from rfl]
                rw [if_neg hne]
                rw [ihM (k, v) _ hm (delimOk_members ps rest)]
                simp only
                rw [ihP ps rest hp]
      · intro xs rest hsz
        cases xs with
        | nil => rfl
        | cons x xs =>
            have hx1 : jsizeV x ≤ fuel := by simp [jsizeL] at hsz; omega
            have hx2 : jsizeL xs ≤ fuel := by simp [jsizeL] at hsz; omega
            rw [show jDumpElems (x :: xs) ++ ']' :: rest
                  = ',' :: ' ' :: (jDump x ++ (jDumpElems xs ++ ']' :: rest)) from by
                simp [jDumpElems, List.append_assoc, List.cons_append]]
            rw [show parseElems (fuel + 1)
                  (',' :: ' ' :: (jDump x ++ (jDumpElems xs ++ ']' :: rest)))
                  = (match parseV fuel (jDump x ++ (jDumpElems xs ++ ']' :: rest)) with
                     | some (v, rest1) =>
                         (match parseElems fuel rest1 with
                          | some (vs, rest2) => some (v :: vs, rest2)
                          | none => none)
                     | none => none) from rfl]
            rw [ihV x _ hx1 (delimOk_elems xs rest)]
            simp only
            rw [ihE xs rest hx2]
      · intro p rest hsz hrest
        obtain ⟨k, v⟩ := p
        have hv : jsizeV v ≤ fuel := by simp at hsz; omega
        rw [show jDumpMember (k, v) ++ rest
              = '"' :: (k.data.flatMap escChar ++ '"' :: (':' :: ' ' :: (jDump v ++ rest)))
            from by simp [jDumpMember, escStr, List.append_assoc, List.cons_append]]
        rw [show parseMember (fuel + 1)
              ('"' :: (k.data.flatMap escChar ++ '"' :: (':' :: ' ' :: (jDump v ++ rest))))
              = (match parseStrBody
                    ((k.data.flatMap escChar
                        ++ '"' :: (':' :: ' ' :: (jDump v ++ rest))).length + 1)
                    (k.data.flatMap escChar ++ '"' :: (':' :: ' ' :: (jDump v ++ rest))) with
                 | some (k2, rest1) =>
                     (match rest1 with
                      | ':' :: ' ' :: cs2 =>
                          (match parseV fuel cs2 with
                           | some (v2, rest2) => some ((⟨k2⟩, v2), rest2)
                           | none => none)
                      | _ => none)
                 | none => none) from rfl]
        rw [parseStrBody_escape k.data _ _ (by
          have := escLen k.data
          simp only [List.length_append, List.length_cons]
          omega)]
        simp only
        rw [ihV v _ hv hrest]
      · intro ps rest hsz
        cases ps with
        | nil => rfl
        | cons p ps =>
            obtain ⟨k, v⟩ := p
            have hm : 1 + jsizeV v ≤ fuel := by simp [jsizeP] at hsz; omega
            have hp : jsizeP ps ≤ fuel := by simp [jsizeP] at hsz; omega
            rw [show jDumpMembers ((k, v) :: ps) ++ '\x7d' :: rest
                  = ',' :: ' ' :: (jDumpMember (k, v) ++ (jDumpMembers ps ++ '\x7d' :: rest))
                from by simp [jDumpMembers, List.append_assoc, List.cons_append]]
            rw [show parseMembers (fuel + 1)
                  (',' :: ' ' :: (jDumpMember (k, v) ++ (jDumpMembers ps ++ '\x7d' :: rest)))
                  = (match parseMember fuel
                        (jDumpMember (k, v) ++ (jDumpMembers ps ++ '\x7d' :: rest)) with
                     | some (kv, rest1) =>
                         (match parseMembers fuel rest1 with
                          | some (kvs, rest2) => some (kv :: kvs, rest2)
                          | none => none)
                     | none => none) from rfl]
            rw [ihM (k, v) _ hm (delimOk_members ps rest)]
            simp only
            rw [ihP ps rest hp]

/-- jDump is injective: two values with the same rendering are equal. -/
theorem jDump_inj (v w : JValue) (h : jDump v = jDump w) : v = w := by
  have hv := (parse_roundtrip (max (jsizeV v) (jsizeV w))).1 v [] (le_max_left _ _) rfl
  have hw := (parse_roundtrip (max (jsizeV v) (jsizeV w))).1 w [] (le_max_right _ _) rfl
  rw [List.append_nil] at hv hw
  rw [h, hw] at hv
  injection hv with hv
  injection hv with h1 h2
  exact h1.symm

theorem keysStrictSorted_tail (p : String × JValue) (ps : List (String × JValue))
    (h : keysStrictSorted (p :: ps) = true) : keysStrictSorted ps = true := by
  cases ps with
  | nil => rfl
  | cons q qs =>
      obtain ⟨k1, v1⟩ := p
      obtain ⟨k2, v2⟩ := q
      exact (Bool.and_eq_true _ _ |>.mp h).2

theorem jInsertPair_head (p q : String × JValue) (qs : List (String × JValue))
    (h : strLtL p.1.data q.1.data = true) : jInsertPair p (q :: qs) = p :: q :: qs := by
  have hle : strLe p.1 q.1 = true := by simp [strLe, h]
  simp [jInsertPair, hle]

theorem jSortPairs_fix : ∀ l : List (String × JValue),
    keysStrictSorted l = true → jSortPairs l = l := by
  intro l
  induction l with
  | nil => intro _; rfl
  | cons p ps ih =>
      intro h
      show jInsertPair p (jSortPairs ps) = p :: ps
      rw [ih (keysStrictSorted_tail p ps h)]
      cases ps with
      | nil => rfl
      | cons q qs =>
          obtain ⟨k1, v1⟩ := p
          obtain ⟨k2, v2⟩ := q
          exact jInsertPair_head (k1, v1) (k2, v2) qs (Bool.and_eq_true _ _ |>.mp h).1

mutual
theorem jSortObjs_canon : ∀ v : JValue, jCanon v = true → jSortObjs v = v
  | .null, _ => rfl
  | .bool b, _ => rfl
  | .num n, _ => rfl
  | .str s, _ => rfl
  | .arr xs, h => by
      show JValue.arr (jSortObjsList xs) = .arr xs
      rw [jSortObjsList_canon xs (by simpa [jCanon] using h)]
  | .obj kvs, h => by
      have h2 : keysStrictSorted kvs = true ∧ jCanonP kvs = true := by
        simpa [jCanon] using h
      show JValue.obj (jSortPairs (jSortObjsPairs kvs)) = .obj kvs
      rw [jSortObjsPairs_canon kvs h2.2, jSortPairs_fix kvs h2.1]

theorem jSortObjsList_canon : ∀ xs : List JValue, jCanonL xs = true → jSortObjsList xs = xs
  | [], _ => rfl
  | x :: xs, h => by
      have h2 : jCanon x = true ∧ jCanonL xs = true := by simpa [jCanonL] using h
      show jSortObjs x :: jSortObjsList xs = x :: xs
      rw [jSortObjs_canon x h2.1, jSortObjsList_canon xs h2.2]

theorem jSortObjsPairs_canon : ∀ ps : List (String × JValue),
    jCanonP ps = true → jSortObjsPairs ps = ps
  | [], _ => rfl
  | (k, v) :: ps, h => by
      have h2 : jCanon v = true ∧ jCanonP ps = true := by simpa [jCanonP] using h
      show (k, jSortObjs v) :: jSortObjsPairs ps = (k, v) :: ps
      rw [jSortObjs_canon v h2.1, jSortObjsPairs_canon ps h2.2]
end

theorem jSortObjs_optObj (o : Option (List (String × JValue)))
    (h : optObjCanon o = true) : jSortObjs (optObjJ o) = optObjJ o := by
  cases o with
  | none => rfl
  | some l => exact jSortObjs_canon (.obj l) (by simpa [optObjCanon, objCanon] using h)

theorem jSortObjs_optStr (o : Option String) : jSortObjs (optStrJ o) = optStrJ o := by
  cases o <;> rfl

theorem optObjJ_inj (a b : Option (List (String × JValue))) (h : optObjJ a = optObjJ b) :
    a = b := by
  cases a <;> cases b <;> simp_all [optObjJ]

theorem optStrJ_inj (a b : Option String) (h : optStrJ a = optStrJ b) : a = b := by
  cases a <;> cases b <;> simp_all [optStrJ]

/-- Sorted form of the per-target payload: the four keys in key order. -/
theorem sort_target_payload (t : LLMTarget) :
    jSortObjs (target_to_payload t)
      = .obj [("model", .str t.model),
              ("model_config", jSortObjs (optObjJ t.model_config)),
              ("provider", .str t.provider),
              ("provider_config", jSortObjs (optObjJ t.provider_config))] := rfl

/-- Sorted form of the per-request payload. -/
theorem sort_request_payload (r : LLMRequest) :
    jSortObjs (request_to_payload r)
      = .obj [("agent_functions",
                jSortObjs (match r.agent_functions with
                  | some l => if l = [] then JValue.null else .arr ((strSorted l).map .str)
                  | none => JValue.null)),
              ("contents", .arr (jSortObjsList (r.contents.map message_to_payload))),
              ("structured_output", jSortObjs (optObjJ r.structured_output)),
              ("system_prompt", jSortObjs (optStrJ r.system_prompt))] := rfl

/-- Sorted form of the whole cache-key payload. -/
theorem sort_cache_payload (p : LLMExecutionPlan) :
    jSortObjs (cache_key_payload p)
      = .obj [("fallbacks", .arr (jSortObjsList (p.fallbacks.map target_to_payload))),
              ("primary", jSortObjs (target_to_payload p.primary)),
              ("request", jSortObjs (request_to_payload p.request)),
              ("retry", .obj [("backoff_sec", .num p.retry.backoff_sec),
                              ("max_attempts", .num (p.retry.max_attempts : Int)),
                              ("retry_on",
                                .arr (jSortObjsList (p.retry.retry_on.map .str)))]),
              ("version", .num CACHE_VERSION)] := rfl

/-- Sorted form of a text message payload. -/
theorem sort_message_payload_text (r : LLMRole) (s : String) (o : Option String) :
    jSortObjs (message_to_payload ⟨r, .text s, o⟩)
      = .obj (match o with
          | some rep =>
              [("content", .str s), ("content_type", .str "text"),
               ("original_content_repr", .str rep), ("role", .str r.value)]
          | none =>
              [("content", .str s), ("content_type", .str "text"),
               ("role", .str r.value)]) := by
  cases o <;> rfl

/-- Sorted form of a function-request message payload. -/
theorem sort_message_payload_freq (r : LLMRole) (f : LLMFunctionRequest) (o : Option String) :
    jSortObjs (message_to_payload ⟨r, .funcReq f, o⟩)
      = .obj (match o with
          | some rep =>
              [("content", .obj [("args", jSortObjs (optObjJ f.args)), ("name", .str f.name)]),
               ("content_type", .str "function_request"),
               ("original_content_repr", .str rep), ("role", .str r.value)]
          | none =>
              [("content", .obj [("args", jSortObjs (optObjJ f.args)), ("name", .str f.name)]),
               ("content_type", .str "function_request"),
               ("role", .str r.value)]) := by
  cases o <;> rfl

/-- Sorted form of a function-response message payload. -/
theorem sort_message_payload_fresp (r : LLMRole) (f : LLMFunctionResponse) (o : Option String) :
    jSortObjs (message_to_payload ⟨r, .funcResp f, o⟩)
      = .obj (match o with
          | some rep =>
              [("content", .obj [("name", .str f.name), ("result", jSortObjs f.result)]),
               ("content_type", .str "function_response"),
               ("original_content_repr", .str rep), ("role", .str r.value)]
          | none =>
              [("content", .obj [("name", .str f.name), ("result", jSortObjs f.result)]),
               ("content_type", .str "function_response"),
               ("role", .str r.value)]) := by
  cases o <;> rfl

theorem roleValue_inj (a b : LLMRole) (h : a.value = b.value) : a = b := by
  cases a <;> cases b <;> first | rfl | exact absurd h (by decide)

/-- Two canonical messages with the same sorted payload are equal. -/
theorem message_payload_inj (m1 m2 : LLMMessage) (h1 : msgCanon m1 = true)
    (h2 : msgCanon m2 = true)
    (h : jSortObjs (message_to_payload m1) = jSortObjs (message_to_payload m2)) :
    m1 = m2 := by
  obtain ⟨r1, c1, o1⟩ := m1
  obtain ⟨r2, c2, o2⟩ := m2
  cases c1 with
  | text s1 =>
      cases c2 with
      | text s2 =>
          rw [sort_message_payload_text, sort_message_payload_text] at h
          cases o1 <;> cases o2 <;> simp at h
          · obtain ⟨hs, hr⟩ := h
            obtain rfl := roleValue_inj r1 r2 hr
            rw [hs]
          · obtain ⟨hs, hrep, hr⟩ := h
            obtain rfl := roleValue_inj r1 r2 hr
            rw [hs, hrep]
      | funcReq f2 =>
          rw [sort_message_payload_text, sort_message_payload_freq] at h
          cases o1 <;> cases o2 <;> simp at h
      | funcResp f2 =>
          rw [sort_message_payload_text, sort_message_payload_fresp] at h
          cases o1 <;> cases o2 <;> simp at h
  | funcReq f1 =>
      cases c2 with
      | text s2 =>
          rw [sort_message_payload_freq, sort_message_payload_text] at h
          cases o1 <;> cases o2 <;> simp at h
      | funcReq f2 =>
          have hc1 : optObjCanon f1.args = true := h1
          have hc2 : optObjCanon f2.args = true := h2
          rw [sort_message_payload_freq, sort_message_payload_freq] at h
          cases o1 <;> cases o2 <;> simp at h
          · obtain ⟨⟨hargs, hname⟩, hr⟩ := h
            rw [jSortObjs_optObj _ hc1, jSortObjs_optObj _ hc2] at hargs
            obtain rfl := roleValue_inj r1 r2 hr
            have hf : f1 = f2 := by
              cases f1; cases f2
              simp only [LLMFunctionRequest.mk.injEq]
              exact ⟨hname, optObjJ_inj _ _ hargs⟩
            rw [hf]
          · obtain ⟨⟨hargs, hname⟩, hrep, hr⟩ := h
            rw [jSortObjs_optObj _ hc1, jSortObjs_optObj _ hc2] at hargs
            obtain rfl := roleValue_inj r1 r2 hr
            have hf : f1 = f2 := by
              cases f1; cases f2
              simp only [LLMFunctionRequest.mk.injEq]
              exact ⟨hname, optObjJ_inj _ _ hargs⟩
            rw [hf, hrep]
      | funcResp f2 =>
          rw [sort_message_payload_freq, sort_message_payload_fresp] at h
          cases o1 <;> cases o2 <;> simp at h
  | funcResp f1 =>
      cases c2 with
      | text s2 =>
          rw [sort_message_payload_fresp, sort_message_payload_text] at h
          cases o1 <;> cases o2 <;> simp at h
      | funcReq f2 =>
          rw [sort_message_payload_fresp, sort_message_payload_freq] at h
          cases o1 <;> cases o2 <;> simp at h
      | funcResp f2 =>
          have hc1 : jCanon f1.result = true := h1
          have hc2 : jCanon f2.result = true := h2
          rw [sort_message_payload_fresp, sort_message_payload_fresp] at h
          cases o1 <;> cases o2 <;> simp at h
          · obtain ⟨⟨hname, hres⟩, hr⟩ := h
            rw [jSortObjs_canon _ hc1, jSortObjs_canon _ hc2] at hres
            obtain rfl := roleValue_inj r1 r2 hr
            have hf : f1 = f2 := by
              cases f1; cases f2
              simp only [LLMFunctionResponse.mk.injEq]
              exact ⟨hname, hres⟩
            rw [hf]
          · obtain ⟨⟨hname, hres⟩, hrep, hr⟩ := h
            rw [jSortObjs_canon _ hc1, jSortObjs_canon _ hc2] at hres
            obtain rfl := roleValue_inj r1 r2 hr
            have hf : f1 = f2 := by
              cases f1; cases f2
              simp only [LLMFunctionResponse.mk.injEq]
              exact ⟨hname, hres⟩
            rw [hf, hrep]

/-- Canonical message lists with the same sorted payload list are equal. -/
theorem contents_payload_inj : ∀ l1 l2 : List LLMMessage,
    l1.all msgCanon = true → l2.all msgCanon = true →
    jSortObjsList (l1.map message_to_payload) = jSortObjsList (l2.map message_to_payload) →
    l1 = l2 := by
  intro l1
  induction l1 with
  | nil =>
      intro l2 _ _ h
      cases l2 with
      | nil => rfl
      | cons m l2 =>
          rw [List.map_nil, List.map_cons,
            show jSortObjsList ([] : List JValue) = [] from rfl,
            show jSortObjsList (message_to_payload m :: l2.map message_to_payload)
                = jSortObjs (message_to_payload m)
                    :: jSortObjsList (l2.map message_to_payload) from rfl] at h
          exact absurd h (by simp)
  | cons m l1 ih =>
      intro l2 hc1 hc2 h
      cases l2 with
      | nil =>
          rw [List.map_nil, List.map_cons,
            show jSortObjsList ([] : List JValue) = [] from rfl,
            show jSortObjsList (message_to_payload m :: l1.map message_to_payload)
                = jSortObjs (message_to_payload m)
                    :: jSortObjsList (l1.map message_to_payload) from rfl] at h
          exact absurd h (by simp)
      | cons m2 l2 =>
          rw [List.map_cons, List.map_cons,
            show jSortObjsList (message_to_payload m :: l1.map message_to_payload)
                = jSortObjs (message_to_payload m)
                    :: jSortObjsList (l1.map message_to_payload) from rfl,
            show jSortObjsList (message_to_payload m2 :: l2.map message_to_payload)
                = jSortObjs (message_to_payload m2)
                    :: jSortObjsList (l2.map message_to_payload) from rfl] at h
          injection h with hh ht
          simp only [List.all_cons, Bool.and_eq_true] at hc1 hc2
          rw [message_payload_inj m m2 hc1.1 hc2.1 hh, ih l2 hc1.2 hc2.2 ht]

/-- Two canonical targets with the same sorted payload are equal. -/
theorem target_payload_inj (t1 t2 : LLMTarget) (h1 : targetCanon t1 = true)
    (h2 : targetCanon t2 = true)
    (h : jSortObjs (target_to_payload t1) = jSortObjs (target_to_payload t2)) : t1 = t2 := by
  simp only [targetCanon, Bool.and_eq_true] at h1 h2
  rw [sort_target_payload, sort_target_payload] at h
  simp at h
  obtain ⟨hm, hmc, hp, hpc⟩ := h
  rw [jSortObjs_optObj _ h1.1, jSortObjs_optObj _ h2.1] at hmc
  rw [jSortObjs_optObj _ h1.2, jSortObjs_optObj _ h2.2] at hpc
  obtain ⟨p1, mo1, mc1, pc1⟩ := t1
  obtain ⟨p2, mo2, mc2, pc2⟩ := t2
  simp only [LLMTarget.mk.injEq]
  exact ⟨hp, hm, optObjJ_inj _ _ hmc, optObjJ_inj _ _ hpc⟩

/-- Canonical target lists with the same sorted payload list are equal. -/
theorem targets_payload_inj : ∀ l1 l2 : List LLMTarget,
    l1.all targetCanon = true → l2.all targetCanon = true →
    jSortObjsList (l1.map target_to_payload) = jSortObjsList (l2.map target_to_payload) →
    l1 = l2 := by
  intro l1
  induction l1 with
  | nil =>
      intro l2 _ _ h
      cases l2 with
      | nil => rfl
      | cons t l2 =>
          rw [List.map_nil, List.map_cons,
            show jSortObjsList ([] : List JValue) = [] from rfl,
            show jSortObjsList (target_to_payload t :: l2.map target_to_payload)
                = jSortObjs (target_to_payload t)
                    :: jSortObjsList (l2.map target_to_payload) from rfl] at h
          exact absurd h (by simp)
  | cons t l1 ih =>
      intro l2 hc1 hc2 h
      cases l2 with
      | nil =>
          rw [List.map_nil, List.map_cons,
            show jSortObjsList ([] : List JValue) = [] from rfl,
            show jSortObjsList (target_to_payload t :: l1.map target_to_payload)
                = jSortObjs (target_to_payload t)
                    :: jSortObjsList (l1.map target_to_payload) from rfl] at h
          exact absurd h (by simp)
      | cons t2 l2 =>
          rw [List.map_cons, List.map_cons,
            show jSortObjsList (target_to_payload t :: l1.map target_to_payload)
                = jSortObjs (target_to_payload t)
                    :: jSortObjsList (l1.map target_to_payload) from rfl,
            show jSortObjsList (target_to_payload t2 :: l2.map target_to_payload)
                = jSortObjs (target_to_payload t2)
                    :: jSortObjsList (l2.map target_to_payload) from rfl] at h
          injection h with hh ht
          simp only [List.all_cons, Bool.and_eq_true] at hc1 hc2
          rw [target_payload_inj t t2 hc1.1 hc2.1 hh, ih l2 hc1.2 hc2.2 ht]

theorem mapStr_inj : ∀ l1 l2 : List String,
    jSortObjsList (l1.map JValue.str) = jSortObjsList (l2.map JValue.str) → l1 = l2 := by
  intro l1
  induction l1 with
  | nil =>
      intro l2 h
      cases l2 with
      | nil => rfl
      | cons s l2 =>
          rw [List.map_nil, List.map_cons,
            show jSortObjsList ([] : List JValue) = [] from rfl,
            show jSortObjsList (JValue.str s :: l2.map JValue.str)
                = JValue.str s :: jSortObjsList (l2.map JValue.str) from rfl] at h
          exact absurd h (by simp)
  | cons s l1 ih =>
      intro l2 h
      cases l2 with
      | nil =>
          rw [List.map_nil, List.map_cons,
            show jSortObjsList ([] : List JValue) = [] from rfl,
            show jSortObjsList (JValue.str s :: l1.map JValue.str)
                = JValue.str s :: jSortObjsList (l1.map JValue.str) from rfl] at h
          exact absurd h (by simp)
      | cons s2 l2 =>
          rw [List.map_cons, List.map_cons,
            show jSortObjsList (JValue.str s :: l1.map JValue.str)
                = JValue.str s :: jSortObjsList (l1.map JValue.str) from rfl,
            show jSortObjsList (JValue.str s2 :: l2.map JValue.str)
                = JValue.str s2 :: jSortObjsList (l2.map JValue.str) from rfl] at h
          injection h with hh ht
          injection hh with hh
          rw [hh, ih l2 ht]

/-- On canonical plans, equal cache-key blobs force equality of every
fingerprinted field: the message list, the primary target, the ordered
fallbacks and the retry policy. -/
theorem blob_inj_canon (p q : LLMExecutionPlan) (hp : planCanon p = true)
    (hq : planCanon q = true) (h : cache_key_blob p = cache_key_blob q) :
    p.request.contents = q.request.contents ∧ p.primary = q.primary
      ∧ p.fallbacks = q.fallbacks ∧ p.retry = q.retry := by
  have hs : jSortObjs (cache_key_payload p) = jSortObjs (cache_key_payload q) := by
    rw [cache_key_blob, cache_key_blob, jDumps, jDumps] at h
    injection h with h
    exact jDump_inj _ _ h
  rw [sort_cache_payload, sort_cache_payload] at hs
  simp at hs
  obtain ⟨hfb, hpr, hrq, hba, hma, hro⟩ := hs
  simp only [planCanon, requestCanon, Bool.and_eq_true] at hp hq
  rw [sort_request_payload, sort_request_payload] at hrq
  simp at hrq
  obtain ⟨haf, hct, hso, hsp⟩ := hrq
  refine ⟨contents_payload_inj _ _ hp.1.1.1 hq.1.1.1 hct,
    target_payload_inj _ _ hp.1.2 hq.1.2 hpr,
    targets_payload_inj _ _ hp.2 hq.2 hfb, ?_⟩
  have hro2 := mapStr_inj _ _ hro
  have hma2 : p.retry.max_attempts = q.retry.max_attempts := by exact_mod_cast hma
  calc p.retry = ⟨p.retry.max_attempts, p.retry.retry_on, p.retry.backoff_sec⟩ := rfl
    _ = ⟨q.retry.max_attempts, q.retry.retry_on, q.retry.backoff_sec⟩ := by
        rw [hma2, hro2, hba]
    _ = q.retry := rfl

theorem beBytes_length : ∀ (w n : Nat), (beBytes w n).length = w := by
  intro w
  induction w with
  | zero => intro n; rfl
  | succ w ih =>
      intro n
      show (beBytes w (n / 256) ++ [n % 256]).length = w + 1
      rw [List.length_append, ih]
      rfl

theorem shaRound_length (st : List Nat) (kw : Nat × Nat) :
    (shaRound st kw).length = st.length := by
  unfold shaRound
  split
  · simp
  · rfl

theorem foldl_shaRound_length (l : List (Nat × Nat)) : ∀ h : List Nat,
    (l.foldl (fun s p => shaRound s (p.2, p.1)) h).length = h.length := by
  induction l with
  | nil => intro h; rfl
  | cons x l ih => intro h; rw [List.foldl_cons, ih, shaRound_length]

theorem shaCompress_length (h block : List Nat) (hh : h.length = 8) :
    (shaCompress h block).length = 8 := by
  show ((h.zip ((shaK.zip (shaSchedule block)).foldl
      (fun s p => shaRound s (p.2, p.1)) h)).map (fun p => w32 (p.1 + p.2))).length = 8
  rw [List.length_map, List.length_zip, foldl_shaRound_length, hh]
  rfl

theorem foldl_shaCompress_length : ∀ (blocks : List (List Nat)) (h : List Nat),
    h.length = 8 → (blocks.foldl shaCompress h).length = 8 := by
  intro blocks
  induction blocks with
  | nil => intro h hh; exact hh
  | cons b bs ih => intro h hh; exact ih _ (shaCompress_length h b hh)

theorem foldr_beBytes_length : ∀ hs : List Nat,
    (hs.foldr (fun w acc => beBytes 4 w ++ acc) ([] : List Nat)).length = 4 * hs.length := by
  intro hs
  induction hs with
  | nil => rfl
  | cons w ws ih =>
      rw [List.foldr_cons, List.length_append, ih, beBytes_length, List.length_cons]
      ring

theorem sha256Bytes_length (msg : List Nat) : (sha256Bytes msg).length = 32 := by
  show (((shaBlocks (shaPad msg)).foldl shaCompress shaInitH).foldr
      (fun w acc => beBytes 4 w ++ acc) []).length = 32
  rw [foldr_beBytes_length, foldl_shaCompress_length _ _ (by rfl)]

theorem foldr_byteHex_length : ∀ bs : List Nat,
    (bs.foldr (fun b acc => byteHex b ++ acc) ([] : List Char)).length = 2 * bs.length := by
  intro bs
  induction bs with
  | nil => rfl
  | cons b rest ih =>
      rw [List.foldr_cons, List.length_append, ih, List.length_cons,
        show (byteHex b).length = 2 from rfl]
      ring

/-- Every hex digest the embedded sha256 produces has exactly 64 characters. -/
theorem sha256Hex_length (msg : List Nat) : (sha256Hex msg).length = 64 := by
  show ((sha256Bytes msg).foldr (fun b acc => byteHex b ++ acc) []).length = 64
  rw [foldr_byteHex_length, sha256Bytes_length]

set_option maxRecDepth 100000 in
/-- C5: build_cache_key is a canonical fingerprint: plans with the same
canonical payload get the same key; every key is a fixed-length 64-hex-char
digest; on canonical plans an equal blob forces equality of every
fingerprinted field (message list, primary target, ordered fallbacks, retry
policy), so changing any of those fields changes the serialized blob; and on
the concrete sample plan, changing the message text, the passthrough marker,
the primary target, the fallback list or the retry policy each changes the
digest itself. -/
theorem build_cache_key_fingerprint :
    (∀ p q : LLMExecutionPlan, cache_key_payload p = cache_key_payload q →
        build_cache_key p = build_cache_key q)
    ∧ (∀ p : LLMExecutionPlan, (build_cache_key p).length = 64)
    ∧ (∀ p q : LLMExecutionPlan, planCanon p = true → planCanon q = true →
        cache_key_blob p = cache_key_blob q →
        p.request.contents = q.request.contents ∧ p.primary = q.primary
          ∧ p.fallbacks = q.fallbacks ∧ p.retry = q.retry)
    ∧ build_cache_key samplePlan ≠ build_cache_key samplePlanMsg
    ∧ build_cache_key samplePlan ≠ build_cache_key samplePlanMarker
    ∧ build_cache_key samplePlan ≠ build_cache_key samplePlanPrimary
    ∧ build_cache_key samplePlan ≠ build_cache_key samplePlanFallbacks
    ∧ build_cache_key samplePlan ≠ build_cache_key samplePlanRetry := by
  refine ⟨?_, ?_, blob_inj_canon, by decide, by decide, by decide, by decide, by decide⟩
  · intro p q h
    unfold build_cache_key cache_key_blob
    rw [h]
  · intro p
    exact sha256Hex_length _

set_option maxRecDepth 100000 in
theorem build_cache_key_fingerprint_witness :
    planCanon samplePlan = true ∧ samplePlan.primary = samplePlan.primary :=
  ⟨by decide,
   (build_cache_key_fingerprint.2.2.1 samplePlan samplePlan (by decide) (by decide) rfl).2.1⟩
